import Mathlib

/-!
Verification of the sweep-line core of minimalloc (`src/sweeper.cc`).

The C++ source is embedded shallowly:
* `Point`, `PointType` and the comparator `Point.ltb` mirror the anonymous
  namespace of `sweeper.cc` (lines 30-43).
* `Sweep` mirrors `Sweep(const Problem&)` (lines 80-201).  The mutable local
  state of the C++ loop becomes the structure `SweepState`, and the loop body
  becomes the function `step`, applied by `List.foldl` over the sorted event
  list.  `absl::btree_set` values (`actives`, `alive`, the per-buffer overlap
  sets) are modelled as sorted duplicate-free lists with ordered insertion.
* `std::sort` with `Point::operator<` is modelled by `List.insertionSort`
  over the reflexive closure of the comparator; any order consistent with the
  strict weak order is a faithful model of the unstable `std::sort`.
* The pairwise `Buffer::effective_size` collaborator is external to this
  translation unit (declared in `minimalloc.h`, which is outside the sweep
  core); it is passed as an opaque function parameter `eff`.
* `SweepResult.CalculateCuts` mirrors lines 207-217.  The C++ expression
  `sections.size() - 1` is `size_t` arithmetic, modelled by `cutsLen` with an
  explicit wrap-around modulo `2 ^ 64`; `front()` / `back()` on an empty span
  vector is undefined behaviour in C++ and is modelled as skipping the buffer.
-/

namespace Minimalloc

/- The C++ scalar typedefs of minimalloc.h / sweeper.h are mapped to plain
Lean types: buffer indices and cut counters become `Nat`; time values and
section indices become `Int` (section indices are C++ `int` values used with
the sentinel `-1`). -/

/-- Half-open interval of discrete time values (`Buffer::lifespan`). -/
structure Lifespan where
  lower : Int
  upper : Int
deriving DecidableEq

/-- Half-open offset interval within a buffer (`Window`). -/
structure Window where
  lower : Int
  upper : Int
deriving DecidableEq

/-- A gap of a buffer: a sub-interval of its lifespan plus an optional window. -/
structure Gap where
  lifespan : Lifespan
  window : Option Window := none
deriving DecidableEq

/-- The input buffer data used by the sweep: lifespan, size and gaps. -/
structure Buffer where
  lifespan : Lifespan
  size : Int
  gaps : List Gap := []
deriving DecidableEq

instance : Inhabited Buffer := ⟨⟨⟨0, 0⟩, 0, []⟩⟩

structure Problem where
  buffers : List Buffer
deriving DecidableEq

/-- `enum PointType { kRightGap, kRight, kLeft, kLeftGap }` (sweeper.cc:30). -/
inductive PointType
  | kRightGap
  | kRight
  | kLeft
  | kLeftGap
deriving DecidableEq

/-- The underlying integer value of the C++ enum constant. -/
def PointType.tier : PointType → Nat
  | .kRightGap => 0
  | .kRight => 1
  | .kLeft => 2
  | .kLeftGap => 3

/-- sweeper.cc:32-36. -/
structure Point where
  buffer_idx : Nat
  time_value : Int
  point_type : PointType
  window : Option Window := none
deriving DecidableEq

/-- `Point::operator<` (sweeper.cc:37-42): order by time, then point type
(by enum value), then buffer index. -/
def Point.ltb (p x : Point) : Bool :=
  if p.time_value ≠ x.time_value then decide (p.time_value < x.time_value)
  else if p.point_type ≠ x.point_type then decide (p.point_type.tier < x.point_type.tier)
  else decide (p.buffer_idx < x.buffer_idx)

/-- The non-strict order induced by the comparator: `p` may come before `x`.
`std::sort` produces a sequence ordered by this relation. -/
def ptR (p x : Point) : Prop := Point.ltb x p = false

instance : DecidableRel ptR := fun p x => inferInstanceAs (Decidable (Point.ltb x p = false))

/-- Total get with default, for the `std::vector` state tables. -/
def lget (d : α) : List α → Nat → α
  | [], _ => d
  | a :: _, 0 => a
  | _ :: l, n + 1 => lget d l n

/-- Point update of a `std::vector` state table (no-op out of range). -/
def lset : List α → Nat → α → List α
  | [], _, _ => []
  | _ :: l, 0, v => v :: l
  | a :: l, n + 1, v => a :: lset l n v

/-- `absl::btree_set<BufferIdx>::insert`: ordered insertion without duplication. -/
def insertSorted (x : Nat) : List Nat → List Nat
  | [] => [x]
  | y :: l => if x < y then x :: y :: l else if x = y then y :: l else y :: insertSorted x l

/-- A cross section of simultaneously active buffers (`Section`), in the
sorted iteration order of the `absl::btree_set`. -/
abbrev CrossSection := List Nat

/-- Half-open range of section indices (`SectionRange`). -/
structure SectionRange where
  lower : Int
  upper : Int
deriving DecidableEq

/-- sweeper.h: one maximal run of sections during which a buffer keeps one
constant window. -/
structure SectionSpan where
  section_range : SectionRange
  window : Window
deriving DecidableEq

/-- sweeper.h: a group of buffers whose lifespans transitively overlap,
with the range of sections it spans. -/
structure Partition where
  buffer_idxs : List Nat
  section_range : SectionRange
deriving DecidableEq

/-- sweeper.h: a recorded pairwise co-activity fact. -/
structure Overlap where
  buffer_idx : Nat
  effective_size : Int
deriving DecidableEq

/-- `Overlap::operator<` (sweeper.cc:60-63). -/
def Overlap.ltb (a x : Overlap) : Bool :=
  if a.buffer_idx ≠ x.buffer_idx then decide (a.buffer_idx < x.buffer_idx)
  else decide (a.effective_size < x.effective_size)

/-- `absl::btree_set<Overlap>::insert`. -/
def insertOverlap (o : Overlap) : List Overlap → List Overlap
  | [] => [o]
  | x :: l => if Overlap.ltb o x then o :: x :: l
              else if o = x then x :: l else x :: insertOverlap o l

/-- Per-buffer output record (`BufferData`). -/
structure BufferData where
  section_spans : List SectionSpan
  overlaps : List Overlap
deriving DecidableEq

/-- The aggregate output of the sweep (`SweepResult`). -/
structure SweepResult where
  sections : List CrossSection
  partitions : List Partition
  buffer_data : List BufferData
deriving DecidableEq

/-- Event generation for one buffer (sweeper.cc:90-99): per gap, one
`kRightGap` point at the gap start and one `kLeftGap` point at the gap end,
both carrying the gap's window. -/
def gapPts (idx : Nat) : List Gap → List Point
  | [] => []
  | g :: gs =>
      ⟨idx, g.lifespan.lower, .kRightGap, g.window⟩ ::
      ⟨idx, g.lifespan.upper, .kLeftGap, g.window⟩ :: gapPts idx gs

/-- Event generation for one buffer (sweeper.cc:85-103): a `kLeft` point at
the lifespan start, the gap points, and a `kRight` point at the lifespan end. -/
def bufferPts (idx : Nat) (b : Buffer) : List Point :=
  ⟨idx, b.lifespan.lower, .kLeft, none⟩ ::
    (gapPts idx b.gaps ++ [⟨idx, b.lifespan.upper, .kRight, none⟩])

/-- All points of a problem, in generation order (sweeper.cc:85-103). -/
def problemPoints (p : Problem) : List Point :=
  (p.buffers.enum.map (fun ib => bufferPts ib.1 ib.2)).flatten

/-- `std::sort(points.begin(), points.end())` (sweeper.cc:104). -/
def sortedPoints (p : Problem) : List Point :=
  List.insertionSort ptR (problemPoints p)

/-- The mutable local state of the sweep loop (sweeper.cc:105-114), with the
output record under construction.  `spanData` and `overlapData` are the two
components of `result.buffer_data`, kept as parallel tables. -/
structure SweepState where
  actives : List Nat
  alive : List Nat
  lastSectionTime : Int
  lastSectionIdx : Int
  secStart : List Int
  windows : List Window
  sections : List CrossSection
  partitions : List Partition
  spanData : List (List SectionSpan)
  overlapData : List (List Overlap)
deriving DecidableEq

/-- `result.partitions.back().section_range = r` (no-op on an empty list;
the C++ equivalent would be undefined behaviour, which the sweep never
triggers). -/
def setLastRange (r : SectionRange) : List Partition → List Partition
  | [] => []
  | [p] => [{ p with section_range := r }]
  | p :: ps => p :: setLastRange r ps

/-- `result.partitions.back().buffer_idxs.push_back(b)` (no-op on an empty
list, as above). -/
def pushLastIdx (b : Nat) : List Partition → List Partition
  | [] => []
  | [p] => [{ p with buffer_idxs := p.buffer_idxs ++ [b] }]
  | p :: ps => p :: pushLastIdx b ps

/-- The overlap recording loop (sweeper.cc:175-187): for each currently
active buffer, query the collaborator in both directions and insert an
`Overlap` into whichever buffer's set got an effective size.  (A query with
no effective size rewrites the overlap set of that direction to itself,
which is the same as leaving it untouched.) -/
def recordPair (eff : Buffer → Buffer → Option Int) (buffers : List Buffer)
    (buffer_idx : Nat) (od : List (List Overlap)) (active_idx : Nat) :
    List (List Overlap) :=
  let buffer := lget default buffers buffer_idx
  let active := lget default buffers active_idx
  let od := lset od active_idx
    (match eff active buffer with
     | some v => insertOverlap ⟨buffer_idx, v⟩ (lget [] od active_idx)
     | none => lget [] od active_idx)
  lset od buffer_idx
    (match eff buffer active with
     | some v => insertOverlap ⟨active_idx, v⟩ (lget [] od buffer_idx)
     | none => lget [] od buffer_idx)

def recordOverlaps (eff : Buffer → Buffer → Option Int) (buffers : List Buffer)
    (buffer_idx : Nat) (actives : List Nat)
    (od : List (List Overlap)) : List (List Overlap) :=
  actives.foldl (recordPair eff buffers buffer_idx) od

/-- The body of the sweep loop (sweeper.cc:115-198) except for the overlap
recording of lines 174-188, in statement order.  The overlap recording is
re-attached by `step`: it is the only statement of the loop body that touches
the overlap sets, and no other statement reads them, so it commutes with the
rest of the body (it reads `actives` as of line 174, which for a `kLeft` or
empty-`kLeftGap` event is unchanged since loop entry, because the erasure of
lines 139-141 only runs for `kRight` and empty-`kRightGap` events). -/
def stepCore (buffers : List Buffer) (st : SweepState) (point : Point) : SweepState :=
  let buffer_idx := point.buffer_idx
  let time_value := point.time_value
  let buffer := lget default buffers buffer_idx
  let isLeft := point.point_type = PointType.kLeft
  let isRight := point.point_type = PointType.kRight
  let isEmptyLeftGap := point.point_type = PointType.kLeftGap ∧ point.window = none
  let isEmptyRightGap := point.point_type = PointType.kRightGap ∧ point.window = none
  let isWindowedLeftGap := point.point_type = PointType.kLeftGap ∧ point.window.isSome
  let isWindowedRightGap := point.point_type = PointType.kRightGap ∧ point.window.isSome
  -- line 127
  let st := if st.lastSectionTime = -1 then { st with lastSectionTime := time_value } else st
  -- lines 129-131
  let st := if isWindowedRightGap then
      { st with windows := lset st.windows buffer_idx ⟨0, buffer.size⟩ } else st
  -- lines 132-138
  let st := if isRight ∨ isEmptyRightGap ∨ isWindowedRightGap ∨ isWindowedLeftGap then
      (if st.lastSectionTime < time_value then
        { st with lastSectionTime := time_value, sections := st.sections ++ [st.actives] }
       else st)
    else st
  -- lines 139-141
  let st := if isRight ∨ isEmptyRightGap then
      { st with actives := st.actives.erase buffer_idx } else st
  -- lines 142-144
  let st := if isRight then { st with alive := st.alive.erase buffer_idx } else st
  -- lines 145-162
  let st := if (isRight ∨ isEmptyRightGap ∨ isWindowedRightGap ∨ isWindowedLeftGap) ∧
      lget (-1) st.secStart buffer_idx ≠ -1 then
      let section_range : SectionRange :=
        ⟨lget (-1) st.secStart buffer_idx, (st.sections.length : Int)⟩
      let section_span : SectionSpan := ⟨section_range, lget ⟨0, 0⟩ st.windows buffer_idx⟩
      let st := { st with
        spanData := lset st.spanData buffer_idx (lget [] st.spanData buffer_idx ++ [section_span]) }
      let st := if st.alive = [] then
          { st with
            partitions := setLastRange ⟨st.lastSectionIdx, (st.sections.length : Int)⟩ st.partitions,
            lastSectionIdx := (st.sections.length : Int) }
        else st
      { st with secStart := lset st.secStart buffer_idx (-1) }
    else st
  -- lines 163-165
  let st := if isWindowedLeftGap then
      { st with windows := lset st.windows buffer_idx (point.window.getD ⟨0, 0⟩) } else st
  -- lines 166-169
  let st := if (isLeft ∨ isEmptyLeftGap) ∧ st.alive = [] then
      { st with partitions := st.partitions ++ [⟨[], ⟨0, 0⟩⟩] } else st
  -- lines 170-173
  let st := if isLeft then { st with partitions := pushLastIdx buffer_idx st.partitions } else st
  -- lines 189-191
  let st := if isLeft ∨ isEmptyLeftGap then
      { st with actives := insertSorted buffer_idx st.actives } else st
  -- lines 192-195
  let st := if isLeft then { st with alive := insertSorted buffer_idx st.alive } else st
  -- lines 196-198
  let st := if isLeft ∨ isEmptyLeftGap ∨ isWindowedLeftGap ∨ isWindowedRightGap then
      { st with secStart := lset st.secStart buffer_idx (st.sections.length : Int) } else st
  st

/-- The body of the sweep loop (sweeper.cc:115-198): `stepCore` plus the
overlap recording of lines 174-188, which runs on a `kLeft` or empty
`kLeftGap` event against the set of active buffers as of line 174 (equal to
`st.actives` at loop entry for those events, see `stepCore`). -/
def step (eff : Buffer → Buffer → Option Int) (buffers : List Buffer)
    (st : SweepState) (point : Point) : SweepState :=
  let core := stepCore buffers st point
  if point.point_type = PointType.kLeft ∨
      (point.point_type = PointType.kLeftGap ∧ point.window = none) then
    { core with
      overlapData := recordOverlaps eff buffers point.buffer_idx st.actives st.overlapData }
  else core

/-- The initial loop state (sweeper.cc:105-114). -/
def initState (buffers : List Buffer) : SweepState where
  actives := []
  alive := []
  lastSectionTime := -1
  lastSectionIdx := 0
  secStart := List.replicate buffers.length (-1)
  windows := buffers.map (fun b => ⟨0, b.size⟩)
  sections := []
  partitions := []
  spanData := List.replicate buffers.length []
  overlapData := List.replicate buffers.length []

/-- Combined effect of lines 127 and 132-138 for an event kind in the flush
set: initialise the last-section time if unset, then append a cross section
if the event time strictly exceeds it. -/
def flushAt (st : SweepState) (t : Int) : SweepState :=
  let lst := if st.lastSectionTime = -1 then t else st.lastSectionTime
  if lst < t then { st with lastSectionTime := t, sections := st.sections ++ [st.actives] }
  else { st with lastSectionTime := lst }

/-- Effect of lines 145-162 (span closing and possible partition closing)
for an event kind in that set, applied after the flush and erasures. -/
def closeSpanAt (st : SweepState) (b : Nat) : SweepState :=
  if lget (-1) st.secStart b ≠ -1 then
    let st1 := { st with
      spanData := lset st.spanData b (lget [] st.spanData b ++
        [SectionSpan.mk ⟨lget (-1) st.secStart b, (st.sections.length : Int)⟩
          (lget ⟨0, 0⟩ st.windows b)]) }
    let st2 := if st1.alive = [] then
        { st1 with
          partitions := setLastRange ⟨st1.lastSectionIdx, (st1.sections.length : Int)⟩ st1.partitions,
          lastSectionIdx := (st1.sections.length : Int) }
      else st1
    { st2 with secStart := lset st2.secStart b (-1) }
  else st

/-- `Sweep(const Problem&)` (sweeper.cc:80-201), parametrised by the opaque
`Buffer::effective_size` collaborator `eff`. -/
def Sweep (eff : Buffer → Buffer → Option Int) (p : Problem) : SweepResult :=
  let final := (sortedPoints p).foldl (step eff p.buffers) (initState p.buffers)
  { sections := final.sections
    partitions := final.partitions
    buffer_data := List.zipWith (fun s o => ⟨s, o⟩) final.spanData final.overlapData }

/-- The length `sections.size() - 1` of the cuts vector, computed in `size_t`
(unsigned 64-bit) arithmetic as in sweeper.cc:208: it wraps around modulo
`2 ^ 64` when `sections` is empty. -/
def cutsLen (r : SweepResult) : Nat := (r.sections.length + (2 ^ 64 - 1)) % 2 ^ 64

/-- `++cuts[s_idx]` (sweeper.cc:213); an out-of-range index leaves the vector
unchanged (in C++ this would be undefined behaviour). -/
def incrAt (cuts : List Nat) (i : Int) : List Nat :=
  if 0 ≤ i then lset cuts i.toNat (lget 0 cuts i.toNat + 1) else cuts

/-- The inner loop of `CalculateCuts` (sweeper.cc:211-214), running `fuel`
iterations from index `s`. -/
def cutLoopGo : List Nat → Int → Nat → List Nat
  | cuts, _, 0 => cuts
  | cuts, s, n + 1 => cutLoopGo (incrAt cuts s) (s + 1) n

/-- `for (Int s_idx = lo; s_idx + 1 < hi; ++s_idx) ++cuts[s_idx];`. -/
def cutLoop (cuts : List Nat) (lo hi : Int) : List Nat :=
  cutLoopGo cuts lo (hi - 1 - lo).toNat

/-- The per-buffer body of `CalculateCuts` (sweeper.cc:210-214): run the cut
loop from the first recorded span's lower bound up to the last recorded
span's upper bound.  A buffer with no recorded spans is skipped (in C++,
`front()` on an empty vector is undefined behaviour, which the stated claims
exclude). -/
def cutFold (cuts : List Nat) (bd : BufferData) : List Nat :=
  match bd.section_spans with
  | [] => cuts
  | s :: _ =>
      cutLoop cuts s.section_range.lower
        ((bd.section_spans.getLastD ⟨⟨0, 0⟩, ⟨0, 0⟩⟩).section_range.upper)

/-- `SweepResult::CalculateCuts` (sweeper.cc:207-217). -/
def SweepResult.CalculateCuts (r : SweepResult) : List Nat :=
  r.buffer_data.foldl cutFold (List.replicate (cutsLen r) 0)

/-! ### Input validity

The sweep performs no validation (spec section 7); the spec's input contract
(`specValidProblem` below) rules out only inverted or empty intervals,
negative sizes and gaps outside the lifespan.  `wfProblem` is deliberately
STRICTLY STRONGER than that contract: it additionally requires every gap to
lie strictly inside its buffer's lifespan and consecutive gaps to be
strictly separated.  The tiling and span-chain invariants hold under
`wfProblem` but fail on spec-valid inputs with boundary-touching or adjacent
gaps (see `claim_C4_counterexample` and `claim_C7_counterexample`). -/

/-- Gaps starting strictly after `prev`, strictly ordered and proper, ending
strictly before `e` — strictly stronger than the spec discipline
`specGapsOK`. -/
def wfGaps : Int → List Gap → Int → Bool
  | prev, [], e => prev < e
  | prev, g :: gs, e =>
      decide (prev < g.lifespan.lower) && decide (g.lifespan.lower < g.lifespan.upper) &&
        wfGaps g.lifespan.upper gs e

def wfBuffer (b : Buffer) : Bool :=
  decide (0 ≤ b.lifespan.lower) && decide (0 ≤ b.size) &&
    wfGaps b.lifespan.lower b.gaps b.lifespan.upper

def wfProblem (p : Problem) : Bool := p.buffers.all wfBuffer

/-- Modelled from the spec: the input contract of sections 6-7.  Malformed
input is only: inverted or empty intervals, negative sizes, and gaps outside
their buffer's lifespan; the gaps come as an ordered sequence, so each gap
is a proper sub-interval starting no earlier than the previous gap's end
(adjacency and boundary-touching allowed). -/
def specGapsOK : Int → List Gap → Int → Bool
  | _, [], _ => true
  | lo, g :: gs, hiB =>
      decide (lo ≤ g.lifespan.lower) && decide (g.lifespan.lower < g.lifespan.upper) &&
        decide (g.lifespan.upper ≤ hiB) && specGapsOK g.lifespan.upper gs hiB

/-- Modelled from the spec: a buffer is spec-valid when its lifespan is a
proper interval, its size is non-negative and its gaps satisfy
`specGapsOK`. -/
def specValidBuffer (b : Buffer) : Bool :=
  decide (b.lifespan.lower < b.lifespan.upper) && decide (0 ≤ b.size) &&
    specGapsOK b.lifespan.lower b.gaps b.lifespan.upper

/-- Modelled from the spec: a problem is spec-valid when all its buffers
are. -/
def specValidProblem (p : Problem) : Bool := p.buffers.all specValidBuffer

/-- One buffer whose empty gap touches its lifespan end: spec-valid, but
outside `wfProblem`. -/
def gapAtEndProblem : Problem := ⟨[⟨⟨0, 5⟩, 4, [⟨⟨3, 5⟩, none⟩]⟩]⟩

/-- One buffer with two adjacent windowed gaps: spec-valid, but outside
`wfProblem`. -/
def adjacentGapsProblem : Problem :=
  ⟨[⟨⟨0, 10⟩, 4, [⟨⟨3, 5⟩, some ⟨0, 2⟩⟩, ⟨⟨5, 8⟩, some ⟨0, 2⟩⟩]⟩]⟩

/-! ### Derived output predicates used by the claims -/

/-- The partition ranges tile `[lo, hi)` consecutively. -/
def tiles : List Partition → Int → Int → Prop
  | [], lo, hi => lo = hi
  | q :: qs, lo, hi =>
      q.section_range.lower = lo ∧ lo ≤ q.section_range.upper ∧ tiles qs q.section_range.upper hi

/-- The spans of one buffer: every range is proper (`lower < upper`) and
consecutive spans do not overlap and appear in increasing section order. -/
def spanChain (l : List SectionSpan) : Prop :=
  (∀ sp ∈ l, sp.section_range.lower < sp.section_range.upper) ∧
    l.Pairwise (fun sp sq => sp.section_range.upper ≤ sq.section_range.lower)

/-- The lexicographic event order stated by the spec: time value ascending,
then kind tier ascending, then buffer index ascending. -/
def specOrder (p q : Point) : Prop :=
  p.time_value < q.time_value ∨
    (p.time_value = q.time_value ∧
      (p.point_type.tier < q.point_type.tier ∨
        (p.point_type.tier = q.point_type.tier ∧ p.buffer_idx ≤ q.buffer_idx)))

/-! ### Concrete scenario inputs -/

/-- Scenario of claim C1 (spec section 8): one buffer, lifespan `[0,10)`,
size 10, with a single gap `[3,7)` carrying window `{0,2}`. -/
def windowedGapProblem : Problem := ⟨[⟨⟨0, 10⟩, 10, [⟨⟨3, 7⟩, some ⟨0, 2⟩⟩]⟩]⟩

/-- Scenario of claim C3 (spec section 8): A = buffer 0, lifespan `[0,10)`,
size 4; B = buffer 1, lifespan `[5,15)`, size 4; no gaps. -/
def twoOverlappingProblem : Problem := ⟨[⟨⟨0, 10⟩, 4, []⟩, ⟨⟨5, 15⟩, 4, []⟩]⟩

/-- Scenario of claim C8: A = buffer 0, lifespan `[0,10)`, size 10, with an
empty (window-less) gap `[3,7)`; B = buffer 1, lifespan `[l,u)` inside the
gap, of arbitrary size. -/
def emptyGapProblem (l u s : Int) : Problem :=
  ⟨[⟨⟨0, 10⟩, 10, [⟨⟨3, 7⟩, none⟩]⟩, ⟨⟨l, u⟩, s, []⟩]⟩

/-- A problem with no buffers at all (claim C10). -/
def emptyProblem : Problem := ⟨[]⟩

/-- Scenario of claim C2: buffer 0 has lifespan `[0,10)` and an empty
(window-less) gap `[3,7)`; buffer 1 has lifespan `[2,8)`, so both are active
when buffer 0's gap starts at time 3. -/
def emptyGapStartProblem : Problem :=
  ⟨[⟨⟨0, 10⟩, 4, [⟨⟨3, 7⟩, none⟩]⟩, ⟨⟨2, 8⟩, 4, []⟩]⟩

/-- A trivial collaborator used to instantiate theorems at concrete inputs:
no pair of buffers ever conflicts. -/
def effNone : Buffer → Buffer → Option Int := fun _ _ => none

/-- A collaborator that always returns the sum of the two sizes. -/
def effSum : Buffer → Buffer → Option Int := fun a b => some (a.size + b.size)

/-- The sweep state of `emptyGapStartProblem` after processing the first
sorted event (buffer 0's true start at time 0): buffer 0 is active and
alive. -/
def c2PrefixState : SweepState :=
  ((sortedPoints emptyGapStartProblem).take 1).foldl
    (step effSum emptyGapStartProblem.buffers) (initState emptyGapStartProblem.buffers)


/-! ## The loop invariant for the full-run claims (C4, C7) -/

/-- The phase of one buffer during the sweep, determining the shape of its
remaining event list. -/
inductive BMode where
  | notStarted (buf : Buffer)
  | active (gs : List Gap) (hi : Int)
  | inGap (w : Option Window) (gu : Int) (gs : List Gap) (hi : Int)
  | finished

/-- The remaining events of a buffer in a given phase. -/
def remOf (b : Nat) : BMode → List Point
  | .notStarted buf => bufferPts b buf
  | .active gs hi => gapPts b gs ++ [⟨b, hi, .kRight, none⟩]
  | .inGap w gu gs hi => ⟨b, gu, .kLeftGap, w⟩ :: (gapPts b gs ++ [⟨b, hi, .kRight, none⟩])
  | .finished => []

def BMode.isStarted : BMode → Prop
  | .active _ _ => True
  | .inGap _ _ _ _ => True
  | _ => False

def headTime : List Point → Int
  | [] => 0
  | q :: _ => q.time_value

/-- Chain conditions on a buffer's recorded spans: proper ranges, pairwise
ordered without overlap, all upper bounds at most `bound`. -/
def spanOK (l : List SectionSpan) (bound : Int) : Prop :=
  (∀ sp ∈ l, sp.section_range.lower < sp.section_range.upper ∧
    sp.section_range.upper ≤ bound) ∧
  l.Pairwise (fun sp sq => sp.section_range.upper ≤ sq.section_range.lower)

/-- State of a buffer with an open span: the recorded start is in range and
either no section has been flushed at the current last-section time yet or a
section has been flushed since the span start. -/
def openInvP (lst S0 S nt : Int) (spans : List SectionSpan) : Prop :=
  0 ≤ S0 ∧ S0 ≤ S ∧ spanOK spans S0 ∧ (lst < nt ∨ S0 < S)

def closedInvP (S0 S : Int) (spans : List SectionSpan) : Prop :=
  S0 = -1 ∧ spanOK spans S

def modeInv (st : SweepState) (b : Nat) (m : BMode) : Prop :=
  match m with
  | .active _ _ => openInvP st.lastSectionTime (lget (-1) st.secStart b)
      (st.sections.length : Int) (headTime (remOf b m)) (lget [] st.spanData b)
  | .inGap (some _) _ _ _ => openInvP st.lastSectionTime (lget (-1) st.secStart b)
      (st.sections.length : Int) (headTime (remOf b m)) (lget [] st.spanData b)
  | _ => closedInvP (lget (-1) st.secStart b) (st.sections.length : Int)
      (lget [] st.spanData b)

def bufInv (st : SweepState) (rest : List Point) (b : Nat) (m : BMode) : Prop :=
  rest.filter (fun q => q.buffer_idx = b) = remOf b m ∧
  (remOf b m).Pairwise (fun x y => x.time_value < y.time_value) ∧
  modeInv st b m

def partsInv (st : SweepState) : Prop :=
  (st.alive = [] → tiles st.partitions 0 st.lastSectionIdx ∧
    st.lastSectionIdx = (st.sections.length : Int)) ∧
  (st.alive ≠ [] → ∃ closed last, st.partitions = closed ++ [last] ∧
    tiles closed 0 st.lastSectionIdx ∧ st.lastSectionIdx ≤ (st.sections.length : Int))

/-- The loop invariant of the sweep, relating the state to the remaining
sorted event list and a phase assignment for the buffers. -/
def Inv (buffers : List Buffer) (st : SweepState) (rest : List Point)
    (modes : Nat → BMode) : Prop :=
  (∀ q ∈ rest, q.buffer_idx < buffers.length) ∧
  (∀ q ∈ rest, 0 ≤ q.time_value ∧ st.lastSectionTime ≤ q.time_value) ∧
  rest.Pairwise (fun x y => x.time_value ≤ y.time_value) ∧
  (st.lastSectionTime = -1 → st.alive = []) ∧
  st.secStart.length = buffers.length ∧
  st.spanData.length = buffers.length ∧
  st.alive.Pairwise (· < ·) ∧
  (∀ x, x ∈ st.alive ↔ x < buffers.length ∧ (modes x).isStarted) ∧
  (∀ b, b < buffers.length → bufInv st rest b (modes b)) ∧
  partsInv st

def BMode.isOpen : BMode → Prop
  | .active _ _ => True
  | .inGap (some _) _ _ _ => True
  | _ => False



/-! ## Lemmas about the embedding -/


theorem step_kLeft (eff : Buffer → Buffer → Option Int) (buffers : List Buffer)
    (st : SweepState) (b : Nat) (t : Int) (w : Option Window) :
    step eff buffers st ⟨b, t, .kLeft, w⟩ =
      (let st0 := if st.lastSectionTime = -1 then { st with lastSectionTime := t } else st
       let st1 := if st0.alive = [] then
           { st0 with partitions := st0.partitions ++ [⟨[], ⟨0, 0⟩⟩] } else st0
       { st1 with
         partitions := pushLastIdx b st1.partitions,
         actives := insertSorted b st1.actives,
         alive := insertSorted b st1.alive,
         secStart := lset st1.secStart b (st1.sections.length : Int),
         overlapData := recordOverlaps eff buffers b st.actives st.overlapData }) := by
  simp only [step, stepCore]
  simp only [reduceCtorEq, and_false, false_and, and_true, true_and, if_false, if_true,
    or_false, false_or, or_true, true_or, if_neg, not_false_eq_true, ne_eq]

theorem step_emptyLeftGap (eff : Buffer → Buffer → Option Int) (buffers : List Buffer)
    (st : SweepState) (b : Nat) (t : Int) :
    step eff buffers st ⟨b, t, .kLeftGap, none⟩ =
      (let st0 := if st.lastSectionTime = -1 then { st with lastSectionTime := t } else st
       let st1 := if st0.alive = [] then
           { st0 with partitions := st0.partitions ++ [⟨[], ⟨0, 0⟩⟩] } else st0
       { st1 with
         actives := insertSorted b st1.actives,
         secStart := lset st1.secStart b (st1.sections.length : Int),
         overlapData := recordOverlaps eff buffers b st.actives st.overlapData }) := by
  simp only [step, stepCore]
  simp only [reduceCtorEq, and_false, false_and, and_true, true_and, if_false, if_true,
    or_false, false_or, or_true, true_or, if_neg, not_false_eq_true, ne_eq, Option.isSome_none,
    Bool.false_eq_true]

theorem step_kRight (eff : Buffer → Buffer → Option Int) (buffers : List Buffer)
    (st : SweepState) (b : Nat) (t : Int) (w : Option Window) :
    step eff buffers st ⟨b, t, .kRight, w⟩ =
      (let f := flushAt st t
       closeSpanAt { f with actives := f.actives.erase b, alive := f.alive.erase b } b) := by
  simp only [step, stepCore, flushAt, closeSpanAt]
  simp only [reduceCtorEq, and_false, false_and, and_true, true_and, if_false, if_true,
    or_false, false_or, or_true, true_or, if_neg, not_false_eq_true, ne_eq]
  split
  · split <;> rfl
  · rfl

theorem step_emptyRightGap (eff : Buffer → Buffer → Option Int) (buffers : List Buffer)
    (st : SweepState) (b : Nat) (t : Int) :
    step eff buffers st ⟨b, t, .kRightGap, none⟩ =
      closeSpanAt { flushAt st t with actives := (flushAt st t).actives.erase b } b := by
  simp only [step, stepCore, flushAt, closeSpanAt]
  simp only [reduceCtorEq, and_false, false_and, and_true, true_and, if_false, if_true,
    or_false, false_or, or_true, true_or, if_neg, not_false_eq_true, ne_eq, Option.isSome_none,
    Bool.false_eq_true]
  split
  · split <;> rfl
  · rfl

theorem step_windowedRightGap (eff : Buffer → Buffer → Option Int) (buffers : List Buffer)
    (st : SweepState) (b : Nat) (t : Int) (win : Window) :
    step eff buffers st ⟨b, t, .kRightGap, some win⟩ =
      (let f := flushAt
          { st with windows := lset st.windows b ⟨0, (lget default buffers b).size⟩ } t
       let c := closeSpanAt f b
       { c with secStart := lset c.secStart b (c.sections.length : Int) }) := by
  simp only [step, stepCore, flushAt, closeSpanAt]
  simp only [reduceCtorEq, and_false, false_and, and_true, true_and, if_false, if_true,
    or_false, false_or, or_true, true_or, if_neg, not_false_eq_true, ne_eq, Option.isSome_some]
  split
  · split <;> rfl
  · rfl

theorem step_windowedLeftGap (eff : Buffer → Buffer → Option Int) (buffers : List Buffer)
    (st : SweepState) (b : Nat) (t : Int) (win : Window) :
    step eff buffers st ⟨b, t, .kLeftGap, some win⟩ =
      (let c := closeSpanAt (flushAt st t) b
       { c with
         windows := lset c.windows b win,
         secStart := lset c.secStart b (c.sections.length : Int) }) := by
  simp only [step, stepCore, flushAt, closeSpanAt]
  simp only [reduceCtorEq, and_false, false_and, and_true, true_and, if_false, if_true,
    or_false, false_or, or_true, true_or, if_neg, not_false_eq_true, ne_eq, Option.isSome_some]
  split
  · split <;> rfl
  · rfl

end Minimalloc

namespace Minimalloc

theorem flushAt_od (st : SweepState) (od : List (List Overlap)) (t : Int) :
    flushAt { st with overlapData := od } t = { flushAt st t with overlapData := od } := by
  simp only [flushAt]
  split_ifs <;> rfl

theorem closeSpanAt_od (st : SweepState) (od : List (List Overlap)) (b : Nat) :
    closeSpanAt { st with overlapData := od } b = { closeSpanAt st b with overlapData := od } := by
  simp only [closeSpanAt]
  split_ifs <;> rfl

theorem lset_length (l : List α) (n : Nat) (v : α) : (lset l n v).length = l.length := by
  induction l generalizing n with
  | nil => rfl
  | cons a l ih =>
    cases n with
    | zero => rfl
    | succ n => simpa [lset] using ih n

theorem recordPair_length (eff : Buffer → Buffer → Option Int) (buffers : List Buffer)
    (b : Nat) (od : List (List Overlap)) (a : Nat) :
    (recordPair eff buffers b od a).length = od.length := by
  simp only [recordPair]
  rcases eff (lget default buffers a) (lget default buffers b) with _ | v <;>
    rcases eff (lget default buffers b) (lget default buffers a) with _ | w <;>
      simp [lset_length]

theorem recordOverlaps_length (eff : Buffer → Buffer → Option Int) (buffers : List Buffer)
    (b : Nat) (actives : List Nat) (od : List (List Overlap)) :
    (recordOverlaps eff buffers b actives od).length = od.length := by
  unfold recordOverlaps
  induction actives generalizing od with
  | nil => rfl
  | cons a l ih => simp only [List.foldl_cons]; rw [ih, recordPair_length]

theorem step_od (eff eff2 : Buffer → Buffer → Option Int) (buffers : List Buffer)
    (s : SweepState) (od : List (List Overlap)) (pt : Point) :
    step eff buffers { s with overlapData := od } pt =
      { step eff2 buffers s pt with overlapData :=
          (if pt.point_type = PointType.kLeft ∨
              (pt.point_type = PointType.kLeftGap ∧ pt.window = none) then
            recordOverlaps eff buffers pt.buffer_idx s.actives od
          else od) } := by
  rcases pt with ⟨b, t, ty, w⟩
  cases ty <;> rcases w with _ | win <;>
      simp only [step_kRight, step_kLeft, step_emptyLeftGap, step_emptyRightGap,
        step_windowedRightGap, step_windowedLeftGap] <;>
      simp only [reduceCtorEq, and_false, false_and, and_true, true_and, if_false, if_true,
        or_false, false_or, or_true, true_or, not_false_eq_true, ne_eq, Option.isSome_none,
        Option.isSome_some, reduceCtorEq, Option.some.injEq] <;>
      (try dsimp only [flushAt, closeSpanAt]) <;>
      split_ifs <;> rfl

theorem foldl_step_od (eff eff2 : Buffer → Buffer → Option Int) (buffers : List Buffer)
    (pts : List Point) (s : SweepState) (od : List (List Overlap))
    (h : od.length = s.overlapData.length) :
    ∃ od2, od2.length = (pts.foldl (step eff2 buffers) s).overlapData.length ∧
      pts.foldl (step eff buffers) { s with overlapData := od } =
        { pts.foldl (step eff2 buffers) s with overlapData := od2 } := by
  induction pts generalizing s od with
  | nil => exact ⟨od, h, rfl⟩
  | cons pt pts ih =>
    simp only [List.foldl_cons]
    rw [step_od eff eff2]
    have hlen : (if pt.point_type = PointType.kLeft ∨
          (pt.point_type = PointType.kLeftGap ∧ pt.window = none) then
        recordOverlaps eff buffers pt.buffer_idx s.actives od
      else od).length = (step eff2 buffers s pt).overlapData.length := by
      have h2 := step_od eff2 eff2 buffers s s.overlapData pt
      have : { s with overlapData := s.overlapData } = s := rfl
      rw [this] at h2
      rw [h2]
      split <;> simp [recordOverlaps_length, h]
    exact ih (step eff2 buffers s pt) _ hlen

theorem Sweep_eff_irrelevant (eff eff2 : Buffer → Buffer → Option Int) (p : Problem) :
    (Sweep eff p).sections = (Sweep eff2 p).sections ∧
      (Sweep eff p).partitions = (Sweep eff2 p).partitions ∧
      (Sweep eff p).buffer_data.map (fun d => d.section_spans) =
        (Sweep eff2 p).buffer_data.map (fun d => d.section_spans) := by
  obtain ⟨od2, hl, he⟩ := foldl_step_od eff eff2 p.buffers (sortedPoints p) (initState p.buffers)
    (initState p.buffers).overlapData rfl
  have hinit : { initState p.buffers with overlapData := (initState p.buffers).overlapData } =
      initState p.buffers := rfl
  rw [hinit] at he
  unfold Sweep
  rw [he]
  refine ⟨rfl, rfl, ?_⟩
  have hzip : ∀ (sp : List (List SectionSpan)) (o o2 : List (List Overlap)),
      o.length = o2.length →
      (List.zipWith (fun s o => BufferData.mk s o) sp o).map (fun d => d.section_spans) =
        (List.zipWith (fun s o => BufferData.mk s o) sp o2).map (fun d => d.section_spans) := by
    intro sp
    induction sp with
    | nil => intro o o2 _; rfl
    | cons a sp ih =>
      intro o o2 hlen
      cases o with
      | nil => cases o2 with
        | nil => rfl
        | cons b o2 => simp at hlen
      | cons b o =>
        cases o2 with
        | nil => simp at hlen
        | cons c o2 => simpa using ih o o2 (by simpa using hlen)
  exact hzip _ _ _ hl

/-! ### Projection lemmas -/

theorem flushAt_actives (st : SweepState) (t : Int) : (flushAt st t).actives = st.actives := by
  simp only [flushAt]; split_ifs <;> rfl

theorem flushAt_alive (st : SweepState) (t : Int) : (flushAt st t).alive = st.alive := by
  simp only [flushAt]; split_ifs <;> rfl

theorem flushAt_secStart (st : SweepState) (t : Int) :
    (flushAt st t).secStart = st.secStart := by
  simp only [flushAt]; split_ifs <;> rfl

theorem flushAt_windows (st : SweepState) (t : Int) :
    (flushAt st t).windows = st.windows := by
  simp only [flushAt]; split_ifs <;> rfl

theorem flushAt_partitions (st : SweepState) (t : Int) :
    (flushAt st t).partitions = st.partitions := by
  simp only [flushAt]; split_ifs <;> rfl

theorem flushAt_spanData (st : SweepState) (t : Int) :
    (flushAt st t).spanData = st.spanData := by
  simp only [flushAt]; split_ifs <;> rfl

theorem flushAt_overlapData (st : SweepState) (t : Int) :
    (flushAt st t).overlapData = st.overlapData := by
  simp only [flushAt]; split_ifs <;> rfl

theorem flushAt_lastSectionIdx (st : SweepState) (t : Int) :
    (flushAt st t).lastSectionIdx = st.lastSectionIdx := by
  simp only [flushAt]; split_ifs <;> rfl

theorem flushAt_sections (st : SweepState) (t : Int) :
    (flushAt st t).sections =
      if st.lastSectionTime ≠ -1 ∧ st.lastSectionTime < t then st.sections ++ [st.actives]
      else st.sections := by
  simp only [flushAt]
  rcases eq_or_ne st.lastSectionTime (-1) with h | h
  · simp [h]
  · simp only [h, ne_eq, not_false_eq_true, true_and]
    split_ifs <;> first | rfl | tauto

theorem flushAt_lastSectionTime (st : SweepState) (t : Int) :
    (flushAt st t).lastSectionTime =
      if st.lastSectionTime = -1 ∨ st.lastSectionTime < t then t else st.lastSectionTime := by
  simp only [flushAt]
  rcases eq_or_ne st.lastSectionTime (-1) with h | h <;>
    rcases lt_or_le st.lastSectionTime t with h2 | h2 <;>
      simp [h, h2, not_lt_of_le, le_antisymm_iff] <;> omega

theorem closeSpanAt_actives (st : SweepState) (b : Nat) :
    (closeSpanAt st b).actives = st.actives := by
  simp only [closeSpanAt]; split_ifs <;> rfl

theorem closeSpanAt_alive (st : SweepState) (b : Nat) :
    (closeSpanAt st b).alive = st.alive := by
  simp only [closeSpanAt]; split_ifs <;> rfl

theorem closeSpanAt_sections (st : SweepState) (b : Nat) :
    (closeSpanAt st b).sections = st.sections := by
  simp only [closeSpanAt]; split_ifs <;> rfl

theorem closeSpanAt_windows (st : SweepState) (b : Nat) :
    (closeSpanAt st b).windows = st.windows := by
  simp only [closeSpanAt]; split_ifs <;> rfl

theorem closeSpanAt_lastSectionTime (st : SweepState) (b : Nat) :
    (closeSpanAt st b).lastSectionTime = st.lastSectionTime := by
  simp only [closeSpanAt]; split_ifs <;> rfl

theorem closeSpanAt_overlapData (st : SweepState) (b : Nat) :
    (closeSpanAt st b).overlapData = st.overlapData := by
  simp only [closeSpanAt]; split_ifs <;> rfl

theorem closeSpanAt_secStart (st : SweepState) (b : Nat) :
    (closeSpanAt st b).secStart =
      if lget (-1) st.secStart b ≠ -1 then lset st.secStart b (-1) else st.secStart := by
  simp only [closeSpanAt]; split_ifs <;> rfl

theorem closeSpanAt_spanData (st : SweepState) (b : Nat) :
    (closeSpanAt st b).spanData =
      if lget (-1) st.secStart b ≠ -1 then
        lset st.spanData b (lget [] st.spanData b ++
          [SectionSpan.mk ⟨lget (-1) st.secStart b, (st.sections.length : Int)⟩
            (lget ⟨0, 0⟩ st.windows b)])
      else st.spanData := by
  simp only [closeSpanAt]; split_ifs <;> rfl

theorem closeSpanAt_partitions (st : SweepState) (b : Nat) :
    (closeSpanAt st b).partitions =
      if lget (-1) st.secStart b ≠ -1 ∧ st.alive = [] then
        setLastRange ⟨st.lastSectionIdx, (st.sections.length : Int)⟩ st.partitions
      else st.partitions := by
  simp only [closeSpanAt]
  split_ifs <;> first | rfl | tauto

theorem closeSpanAt_lastSectionIdx (st : SweepState) (b : Nat) :
    (closeSpanAt st b).lastSectionIdx =
      if lget (-1) st.secStart b ≠ -1 ∧ st.alive = [] then (st.sections.length : Int)
      else st.lastSectionIdx := by
  simp only [closeSpanAt]
  split_ifs <;> first | rfl | tauto

/-! ### The event comparator -/

theorem tier_inj (a b : PointType) : a.tier = b.tier ↔ a = b := by
  cases a <;> cases b <;> simp [PointType.tier]

theorem ltb_iff_true (p q : Point) :
    Point.ltb p q = true ↔
      (p.time_value < q.time_value ∨
        (p.time_value = q.time_value ∧
          (p.point_type.tier < q.point_type.tier ∨
            (p.point_type.tier = q.point_type.tier ∧ p.buffer_idx < q.buffer_idx)))) := by
  unfold Point.ltb
  rcases eq_or_ne p.time_value q.time_value with h1 | h1 <;>
    rcases eq_or_ne p.point_type q.point_type with h2 | h2 <;>
      simp [h1, h2, tier_inj] <;> omega

theorem ptR_iff (p q : Point) :
    ptR p q ↔
      ¬(q.time_value < p.time_value ∨
        (q.time_value = p.time_value ∧
          (q.point_type.tier < p.point_type.tier ∨
            (q.point_type.tier = p.point_type.tier ∧ q.buffer_idx < p.buffer_idx)))) := by
  unfold ptR
  rw [← ltb_iff_true]
  simp

theorem lexNegPos (ta tb : Int) (ua ub ia ib : Nat) :
    ¬(tb < ta ∨ (tb = ta ∧ (ub < ua ∨ (ub = ua ∧ ib < ia)))) ↔
      (ta < tb ∨ (ta = tb ∧ (ua < ub ∨ (ua = ub ∧ ia ≤ ib)))) := by
  constructor
  · intro h
    push_neg at h
    obtain ⟨h1, h2⟩ := h
    rcases eq_or_lt_of_le h1 with he | hl
    · obtain ⟨h3, h4⟩ := h2 he.symm
      rcases eq_or_lt_of_le h3 with he2 | hl2
      · exact Or.inr ⟨he, Or.inr ⟨he2, h4 he2.symm⟩⟩
      · exact Or.inr ⟨he, Or.inl hl2⟩
    · exact Or.inl hl
  · intro h g
    rcases h with h | ⟨h1, h2 | ⟨h2, h3⟩⟩ <;> rcases g with g | ⟨g1, g2 | ⟨g2, g3⟩⟩ <;> omega

theorem lexPos_total (ta tb : Int) (ua ub ia ib : Nat) :
    (ta < tb ∨ (ta = tb ∧ (ua < ub ∨ (ua = ub ∧ ia ≤ ib)))) ∨
      (tb < ta ∨ (tb = ta ∧ (ub < ua ∨ (ub = ua ∧ ib ≤ ia)))) := by
  rcases lt_trichotomy ta tb with h | h | h
  · exact Or.inl (Or.inl h)
  · rcases lt_trichotomy ua ub with h2 | h2 | h2
    · exact Or.inl (Or.inr ⟨h, Or.inl h2⟩)
    · rcases le_total ia ib with h3 | h3
      · exact Or.inl (Or.inr ⟨h, Or.inr ⟨h2, h3⟩⟩)
      · exact Or.inr (Or.inr ⟨h.symm, Or.inr ⟨h2.symm, h3⟩⟩)
    · exact Or.inr (Or.inr ⟨h.symm, Or.inl h2⟩)
  · exact Or.inr (Or.inl h)

theorem lexPos_trans (t1 t2 t3 : Int) (u1 u2 u3 i1 i2 i3 : Nat)
    (h : t1 < t2 ∨ (t1 = t2 ∧ (u1 < u2 ∨ (u1 = u2 ∧ i1 ≤ i2))))
    (g : t2 < t3 ∨ (t2 = t3 ∧ (u2 < u3 ∨ (u2 = u3 ∧ i2 ≤ i3)))) :
    t1 < t3 ∨ (t1 = t3 ∧ (u1 < u3 ∨ (u1 = u3 ∧ i1 ≤ i3))) := by
  rcases h with h | ⟨h1, h2 | ⟨h2, h3⟩⟩ <;> rcases g with g | ⟨g1, g2 | ⟨g2, g3⟩⟩ <;>
    first
      | exact Or.inl (by omega)
      | exact Or.inr ⟨by omega, Or.inl (by omega)⟩
      | exact Or.inr ⟨by omega, Or.inr ⟨by omega, by omega⟩⟩

theorem ptR_iff_specOrder (p q : Point) : ptR p q ↔ specOrder p q := by
  unfold specOrder
  rw [ptR_iff]
  exact lexNegPos p.time_value q.time_value p.point_type.tier q.point_type.tier
    p.buffer_idx q.buffer_idx

theorem specOrder_total (p q : Point) : specOrder p q ∨ specOrder q p :=
  lexPos_total p.time_value q.time_value p.point_type.tier q.point_type.tier
    p.buffer_idx q.buffer_idx

theorem specOrder_trans (p q r : Point) (h : specOrder p q) (g : specOrder q r) :
    specOrder p r :=
  lexPos_trans p.time_value q.time_value r.time_value p.point_type.tier q.point_type.tier
    r.point_type.tier p.buffer_idx q.buffer_idx r.buffer_idx h g

theorem sortedPoints_sorted (p : Problem) : (sortedPoints p).Sorted ptR := by
  have htot : IsTotal Point ptR := ⟨fun a b => by
    rw [ptR_iff_specOrder, ptR_iff_specOrder]
    exact specOrder_total a b⟩
  have htrans : IsTrans Point ptR := ⟨fun a b c hab hbc => by
    rw [ptR_iff_specOrder] at hab hbc ⊢
    exact specOrder_trans a b c hab hbc⟩
  exact @List.sorted_insertionSort Point ptR _ htot htrans (problemPoints p)

theorem sortedPoints_sorted_specOrder (p : Problem) :
    (sortedPoints p).Sorted specOrder :=
  (sortedPoints_sorted p).imp (fun h => (ptR_iff_specOrder _ _).mp h)

theorem step_sections_eq (eff : Buffer → Buffer → Option Int) (buffers : List Buffer)
    (st : SweepState) (pt : Point) :
    (step eff buffers st pt).sections =
      if (pt.point_type = PointType.kRight ∨ pt.point_type = PointType.kRightGap ∨
            (pt.point_type = PointType.kLeftGap ∧ pt.window.isSome)) ∧
          st.lastSectionTime ≠ -1 ∧ st.lastSectionTime < pt.time_value then
        st.sections ++ [st.actives]
      else st.sections := by
  rcases pt with ⟨b, t, ty, w⟩
  cases ty <;> rcases w with _ | win <;>
      simp only [step_kLeft, step_kRight, step_emptyLeftGap, step_emptyRightGap,
        step_windowedRightGap, step_windowedLeftGap, closeSpanAt_sections, flushAt_sections] <;>
      simp only [reduceCtorEq, and_false, false_and, and_true, true_and, if_false, if_true,
        or_false, false_or, or_true, true_or, not_false_eq_true, ne_eq, Option.isSome_none,
        Option.isSome_some, Bool.false_eq_true, and_self, if_neg] <;>
      (try split_ifs <;> first | rfl | tauto)

/-! ### lget and lset -/

theorem lget_lset_self (l : List α) (d : α) (n : Nat) (v : α) (h : n < l.length) :
    lget d (lset l n v) n = v := by
  induction l generalizing n with
  | nil => simp at h
  | cons a l ih =>
    cases n with
    | zero => rfl
    | succ n => exact ih n (by simpa using h)

theorem lget_lset_ne (l : List α) (d : α) (m n : Nat) (v : α) (h : m ≠ n) :
    lget d (lset l n v) m = lget d l m := by
  induction l generalizing m n with
  | nil => rfl
  | cons a l ih =>
    cases n with
    | zero => cases m with
      | zero => exact absurd rfl h
      | succ m => rfl
    | succ n => cases m with
      | zero => rfl
      | succ m => exact ih m n (by omega)

theorem lget_oob (d : α) (l : List α) (n : Nat) (h : l.length ≤ n) : lget d l n = d := by
  induction l generalizing n with
  | nil => rfl
  | cons a l ih =>
    cases n with
    | zero => simp at h
    | succ n => exact ih n (by simpa using h)

theorem lget_replicate (d a : α) (n j : Nat) :
    lget d (List.replicate n a) j = if j < n then a else d := by
  induction n generalizing j with
  | zero => simp [lget]
  | succ n ih =>
    cases j with
    | zero => simp [List.replicate, lget]
    | succ j => simpa [List.replicate, lget] using ih j

/-! ### CalculateCuts -/

theorem incrAt_length (cuts : List Nat) (i : Int) : (incrAt cuts i).length = cuts.length := by
  unfold incrAt
  split_ifs <;> simp [lset_length]

theorem lget_incrAt (cuts : List Nat) (i : Int) (j : Nat) :
    lget 0 (incrAt cuts i) j =
      lget 0 cuts j + (if i = (j : Nat) ∧ j < cuts.length then 1 else 0) := by
  unfold incrAt
  rcases le_or_lt 0 i with h0 | h0
  · rw [if_pos h0]
    rcases eq_or_ne i.toNat j with he | he
    · rcases lt_or_le j cuts.length with hl | hl
      · rw [← he, lget_lset_self _ _ _ _ (by omega), if_pos ⟨by omega, by omega⟩, he]
      · rw [if_neg (by rintro ⟨-, hc⟩; omega), lget_oob _ _ _ (by rw [lset_length]; omega),
          lget_oob _ _ _ (by omega)]
    · rw [lget_lset_ne cuts 0 j i.toNat (lget 0 cuts i.toNat + 1) (by omega),
        if_neg (by rintro ⟨hc, -⟩; omega), Nat.add_zero]
  · rw [if_neg (by omega), if_neg (by rintro ⟨hc, -⟩; omega), Nat.add_zero]

theorem cutLoopGo_length (n : Nat) (cuts : List Nat) (s : Int) :
    (cutLoopGo cuts s n).length = cuts.length := by
  induction n generalizing cuts s with
  | zero => rfl
  | succ n ih => simp [cutLoopGo, ih, incrAt_length]

theorem lget_cutLoopGo (n : Nat) (cuts : List Nat) (s : Int) (j : Nat) :
    lget 0 (cutLoopGo cuts s n) j =
      lget 0 cuts j + (if s ≤ (j : Int) ∧ (j : Int) < s + n ∧ j < cuts.length then 1 else 0) := by
  induction n generalizing cuts s with
  | zero =>
    simp only [cutLoopGo, Nat.cast_zero, add_zero]
    have hno : ¬(s ≤ (j : Int) ∧ (j : Int) < s ∧ j < cuts.length) := by
      rintro ⟨h1, h2, h3⟩
      omega
    rw [if_neg hno, add_zero]
  | succ n ih =>
    rw [cutLoopGo, ih, lget_incrAt, incrAt_length]
    generalize lget 0 cuts j = base
    generalize cuts.length = L
    split_ifs <;> omega

theorem cutLoop_length (cuts : List Nat) (lo hi : Int) :
    (cutLoop cuts lo hi).length = cuts.length := cutLoopGo_length _ _ _

theorem lget_cutLoop (cuts : List Nat) (lo hi : Int) (j : Nat) :
    lget 0 (cutLoop cuts lo hi) j =
      lget 0 cuts j + (if lo ≤ (j : Int) ∧ (j : Int) + 1 < hi ∧ j < cuts.length then 1 else 0) := by
  unfold cutLoop
  rw [lget_cutLoopGo]
  generalize lget 0 cuts j = base
  generalize cuts.length = L
  split_ifs <;> omega

theorem cutFold_length (cuts : List Nat) (bd : BufferData) :
    (cutFold cuts bd).length = cuts.length := by
  rcases hsp : bd.section_spans with _ | ⟨s, rest⟩ <;>
    simp [cutFold, hsp, cutLoop_length]

theorem lget_cutFold (cuts : List Nat) (bd : BufferData) (j : Nat)
    (h : bd.section_spans ≠ []) :
    lget 0 (cutFold cuts bd) j =
      lget 0 cuts j +
        (if (bd.section_spans.headD ⟨⟨0, 0⟩, ⟨0, 0⟩⟩).section_range.lower ≤ (j : Int) ∧
            (j : Int) + 1 < (bd.section_spans.getLastD ⟨⟨0, 0⟩, ⟨0, 0⟩⟩).section_range.upper ∧
            j < cuts.length then 1 else 0) := by
  rcases hsp : bd.section_spans with _ | ⟨s, rest⟩
  · exact absurd hsp h
  · simp only [cutFold, hsp, List.headD_cons]
    rw [lget_cutLoop]

/-- The first-to-last crossing predicate of sweeper.cc:211-212 for one
buffer: its first recorded span starts at or before boundary `j` and its
last recorded span ends strictly after boundary `j + 1`. -/
def crossesAt (bd : BufferData) (j : Nat) : Bool :=
  decide ((bd.section_spans.headD ⟨⟨0, 0⟩, ⟨0, 0⟩⟩).section_range.lower ≤ (j : Int) ∧
    (j : Int) + 1 < (bd.section_spans.getLastD ⟨⟨0, 0⟩, ⟨0, 0⟩⟩).section_range.upper)

theorem foldl_cutFold_spec (bds : List BufferData) (cuts : List Nat)
    (h : ∀ bd ∈ bds, bd.section_spans ≠ []) :
    (bds.foldl cutFold cuts).length = cuts.length ∧
      ∀ j : Nat, lget 0 (bds.foldl cutFold cuts) j =
        lget 0 cuts j + (if j < cuts.length then bds.countP (fun bd => crossesAt bd j) else 0) := by
  induction bds generalizing cuts with
  | nil => exact ⟨rfl, fun j => by simp⟩
  | cons bd bds ih =>
    have hhd : bd.section_spans ≠ [] := h bd (by simp)
    have htl : ∀ x ∈ bds, x.section_spans ≠ [] := fun x hx => h x (by simp [hx])
    obtain ⟨ihl, ihg⟩ := ih (cutFold cuts bd) htl
    constructor
    · simp only [List.foldl_cons]
      rw [ihl, cutFold_length]
    · intro j
      simp only [List.foldl_cons]
      rw [ihg j, cutFold_length, lget_cutFold cuts bd j hhd, List.countP_cons]
      unfold crossesAt
      generalize (bd.section_spans.headD ⟨⟨0, 0⟩, ⟨0, 0⟩⟩).section_range.lower = lo
      generalize (bd.section_spans.getLastD ⟨⟨0, 0⟩, ⟨0, 0⟩⟩).section_range.upper = hi
      generalize lget 0 cuts j = base
      generalize List.countP _ bds = c
      generalize cuts.length = L
      simp only [decide_eq_true_eq]
      split_ifs <;> omega

theorem CalculateCuts_spec (r : SweepResult) (h1 : r.sections ≠ [])
    (h2 : r.sections.length < 2 ^ 64)
    (h3 : ∀ bd ∈ r.buffer_data, bd.section_spans ≠ []) :
    r.CalculateCuts.length = r.sections.length - 1 ∧
      ∀ j : Nat, j < r.sections.length - 1 →
        lget 0 r.CalculateCuts j = r.buffer_data.countP (fun bd => crossesAt bd j) := by
  have h0 : 0 < r.sections.length := List.length_pos.mpr h1
  have hcl : cutsLen r = r.sections.length - 1 := by
    unfold cutsLen
    generalize r.sections.length = n at h0 h2 ⊢
    omega
  obtain ⟨hl, hg⟩ := foldl_cutFold_spec r.buffer_data (List.replicate (cutsLen r) 0) h3
  constructor
  · show (r.buffer_data.foldl cutFold (List.replicate (cutsLen r) 0)).length = _
    rw [hl, List.length_replicate, hcl]
  · intro j hj
    show lget 0 (r.buffer_data.foldl cutFold (List.replicate (cutsLen r) 0)) j = _
    rw [hg j, lget_replicate, List.length_replicate, hcl]
    rw [if_pos (by omega), if_pos (by omega), Nat.zero_add]

theorem CalculateCuts_congr (r1 r2 : SweepResult) (hs : r1.sections = r2.sections)
    (hb : r1.buffer_data.map (fun d => d.section_spans) =
      r2.buffer_data.map (fun d => d.section_spans)) :
    r1.CalculateCuts = r2.CalculateCuts := by
  have key : ∀ (l1 l2 : List BufferData) (init : List Nat),
      l1.map (fun d => d.section_spans) = l2.map (fun d => d.section_spans) →
      l1.foldl cutFold init = l2.foldl cutFold init := by
    intro l1
    induction l1 with
    | nil =>
      intro l2 init h
      cases l2 with
      | nil => rfl
      | cons b l2 => simp at h
    | cons a l1 ih =>
      intro l2 init h
      cases l2 with
      | nil => simp at h
      | cons b l2 =>
        simp only [List.map_cons, List.cons.injEq] at h
        obtain ⟨hab, hl⟩ := h
        simp only [List.foldl_cons]
        have hba : cutFold init a = cutFold init b := by
          unfold cutFold
          rw [hab]
        rw [hba]
        exact ih l2 _ hl
  unfold SweepResult.CalculateCuts cutsLen
  rw [hs]
  exact key _ _ _ hb

theorem CalculateCuts_length (r : SweepResult) : r.CalculateCuts.length = cutsLen r := by
  have key : ∀ (bds : List BufferData) (cuts : List Nat),
      (bds.foldl cutFold cuts).length = cuts.length := by
    intro bds
    induction bds with
    | nil => intro cuts; rfl
    | cons a l ih =>
      intro cuts
      simp only [List.foldl_cons]
      rw [ih, cutFold_length]
  show (r.buffer_data.foldl cutFold (List.replicate (cutsLen r) 0)).length = cutsLen r
  rw [key, List.length_replicate]


/-! ## Claim theorems -/

/-- C1: the spec states that for the problem with one buffer of lifespan
`[0,10)`, size 10, and one gap `[3,7)` with window `{0,2}`, the span during
the gap carries the narrowed window `{0,2}` while the spans before and after
carry the full window `{0,10}`.  The code does not do this: evaluating
`Sweep` at this input (for every collaborator `eff`) shows that the middle
span (sections `[1,2)`, the gap's duration) carries the full window `{0,10}`
and the final span (sections `[2,3)`, after the gap) carries the narrowed
window `{0,2}` — lines 129-131 of sweeper.cc reset the stored window to the
full window at a windowed gap start instead of narrowing it, and lines
163-165 install the gap's window at the gap end instead of restoring the
full window. -/
theorem claim_C1_windowed_gap_span_windows (eff : Buffer → Buffer → Option Int) :
    (Sweep eff windowedGapProblem).buffer_data.map (fun d => d.section_spans) =
      [[⟨⟨0, 1⟩, ⟨0, 10⟩⟩, ⟨⟨1, 2⟩, ⟨0, 10⟩⟩, ⟨⟨2, 3⟩, ⟨0, 2⟩⟩]] := by
  rw [(Sweep_eff_irrelevant eff effNone windowedGapProblem).2.2]
  decide

/-- C3, counterexample: for A = `[0,10)` size 4 and B = `[5,15)` size 4 the
claim predicts 3 sections and 2 cut entries; the code produces 2 sections
(sections are flushed only at shrink-type events, so no section boundary is
recorded at B's true-start) and hence a single cut entry. -/
theorem claim_C3_counterexample :
    ¬((Sweep effNone twoOverlappingProblem).sections.length = 3 ∧
      (Sweep effNone twoOverlappingProblem).CalculateCuts.length = 2) := by
  decide

/-- C3, amended: for the two-buffer gapless problem with A of lifespan
`[0,10)` size 4 and B of lifespan `[5,15)` size 4, `Sweep` produces exactly
2 sections `{A,B}`, `{B}` in that order, exactly 1 partition spanning both
sections, and `CalculateCuts` returns exactly 1 entry equal to 1 —
regardless of the effective-size collaborator. -/
theorem claim_C3_two_overlapping_buffers (eff : Buffer → Buffer → Option Int) :
    (Sweep eff twoOverlappingProblem).sections = [[0, 1], [1]] ∧
      (Sweep eff twoOverlappingProblem).partitions = [⟨[0, 1], ⟨0, 2⟩⟩] ∧
      (Sweep eff twoOverlappingProblem).CalculateCuts = [1] := by
  obtain ⟨hs, hp, hb⟩ := Sweep_eff_irrelevant eff effNone twoOverlappingProblem
  refine ⟨?_, ?_, ?_⟩
  · rw [hs]; decide
  · rw [hp]; decide
  · rw [CalculateCuts_congr _ _ hs hb]; decide

/-- C5: the sweep loop body appends a new section — a snapshot of the
current `actives` set — exactly when the event is a true-end (`kRight`), a
gap-start (`kRightGap`, windowed or not), or a windowed gap-end
(`kLeftGap` with a window), and its time value strictly exceeds the recorded
last-flush time (with the `-1` sentinel meaning "no flush recorded", in
which case the marker is first initialised to the event's time and nothing
is appended).  In particular no section is ever appended while processing a
true-start (`kLeft`) or an empty gap-end (`kLeftGap` without window). -/
theorem claim_C5_section_flush (eff : Buffer → Buffer → Option Int) (buffers : List Buffer)
    (st : SweepState) (pt : Point) :
    (step eff buffers st pt).sections =
      if (pt.point_type = PointType.kRight ∨ pt.point_type = PointType.kRightGap ∨
            (pt.point_type = PointType.kLeftGap ∧ pt.window.isSome)) ∧
          st.lastSectionTime ≠ -1 ∧ st.lastSectionTime < pt.time_value then
        st.sections ++ [st.actives]
      else st.sections :=
  step_sections_eq eff buffers st pt

/-- C6: the event sequence consumed by the sweep (`sortedPoints`, over which
`Sweep` folds) is sorted by time value ascending, then by kind tier
ascending, then by buffer index ascending, where the tiers of the four event
kinds are gap-start = 0 < true-end = 1 < true-start = 2 < gap-end = 3
(independently of whether a gap event carries a window). -/
theorem claim_C6_event_order (p : Problem) :
    PointType.tier PointType.kRightGap = 0 ∧ PointType.tier PointType.kRight = 1 ∧
      PointType.tier PointType.kLeft = 2 ∧ PointType.tier PointType.kLeftGap = 3 ∧
      (sortedPoints p).Sorted specOrder :=
  ⟨rfl, rfl, rfl, rfl, sortedPoints_sorted_specOrder p⟩

/-- C9: for every `SweepResult` with at least one section (of machine-
representable count) in which every buffer holds at least one recorded span,
`CalculateCuts` returns exactly `sections.length - 1` counters, and counter
`j` equals the number of buffers whose first recorded span has lower bound
at most `j` and whose last recorded span has upper bound strictly greater
than `j + 1` — all intermediate spans being ignored. -/
theorem claim_C9_calculate_cuts (r : SweepResult) (h1 : r.sections ≠ [])
    (h2 : r.sections.length < 2 ^ 64)
    (h3 : ∀ bd ∈ r.buffer_data, bd.section_spans ≠ []) :
    r.CalculateCuts.length = r.sections.length - 1 ∧
      ∀ j : Nat, j < r.sections.length - 1 →
        lget 0 r.CalculateCuts j = r.buffer_data.countP (fun bd => crossesAt bd j) :=
  CalculateCuts_spec r h1 h2 h3

/-- Witness for C9 at the concrete two-overlapping-buffer sweep result. -/
theorem claim_C9_calculate_cuts_witness :
    ((Sweep effNone twoOverlappingProblem).sections ≠ [] ∧
        (Sweep effNone twoOverlappingProblem).sections.length < 2 ^ 64 ∧
        (∀ bd ∈ (Sweep effNone twoOverlappingProblem).buffer_data, bd.section_spans ≠ [])) ∧
      ((Sweep effNone twoOverlappingProblem).CalculateCuts.length =
          (Sweep effNone twoOverlappingProblem).sections.length - 1 ∧
        ∀ j : Nat, j < (Sweep effNone twoOverlappingProblem).sections.length - 1 →
          lget 0 (Sweep effNone twoOverlappingProblem).CalculateCuts j =
            (Sweep effNone twoOverlappingProblem).buffer_data.countP
              (fun bd => crossesAt bd j)) :=
  ⟨⟨by decide, by decide, by decide⟩,
    claim_C9_calculate_cuts (Sweep effNone twoOverlappingProblem)
      (by decide) (by decide) (by decide)⟩

/-- C10: sweeping a problem with no buffers yields no sections, and
`CalculateCuts` on that result builds a vector of length
`sections.size() - 1` computed in unsigned 64-bit (`size_t`) arithmetic,
which wraps around to `2 ^ 64 - 1` instead of being 0. -/
theorem claim_C10_empty_sweep_cuts_wrap (eff : Buffer → Buffer → Option Int) :
    (Sweep eff emptyProblem).sections = [] ∧
      (Sweep eff emptyProblem).CalculateCuts.length = 2 ^ 64 - 1 := by
  constructor
  · rfl
  · have hs : (Sweep eff emptyProblem).sections = [] := rfl
    rw [CalculateCuts_length]
    unfold cutsLen
    rw [hs]
    norm_num


/-! ## Claim C2 -/


theorem lset_oob (l : List α) (n : Nat) (v : α) (h : l.length ≤ n) : lset l n v = l := by
  induction l generalizing n with
  | nil => rfl
  | cons a l ih =>
    cases n with
    | zero => simp at h
    | succ n => simp [lset, ih n (by simpa using h)]

theorem mem_insertOverlap_self (o : Overlap) (l : List Overlap) : o ∈ insertOverlap o l := by
  induction l with
  | nil => simp [insertOverlap]
  | cons x l ih =>
    unfold insertOverlap
    split_ifs with h1 h2
    · simp
    · simp [h2]
    · simp [ih]

theorem mem_insertOverlap_of_mem (o x : Overlap) (l : List Overlap) (h : o ∈ l) :
    o ∈ insertOverlap x l := by
  induction l with
  | nil => simp at h
  | cons y l ih =>
    unfold insertOverlap
    split_ifs with h1 h2
    · simp [h]
    · simpa [h2] using h
    · rcases List.mem_cons.mp h with h3 | h3
      · simp [h3]
      · simp [ih h3]

theorem lget_lset_mem (od : List (List Overlap)) (i : Nat) (nl : List Overlap)
    (hsub : ∀ o ∈ lget [] od i, o ∈ nl) (x : Nat) (o : Overlap) (h : o ∈ lget [] od x) :
    o ∈ lget [] (lset od i nl) x := by
  rcases eq_or_ne x i with rfl | hne
  · rcases lt_or_le x od.length with hl | hl
    · rw [lget_lset_self _ _ _ _ hl]
      exact hsub o h
    · rw [lset_oob _ _ _ hl]
      exact h
  · rw [lget_lset_ne _ _ _ _ _ hne]
    exact h

theorem recordPair_mono (eff : Buffer → Buffer → Option Int) (buffers : List Buffer)
    (b : Nat) (od : List (List Overlap)) (a : Nat) (x : Nat) (o : Overlap)
    (h : o ∈ lget [] od x) : o ∈ lget [] (recordPair eff buffers b od a) x := by
  unfold recordPair
  apply lget_lset_mem
  · intro o2 h2
    rcases eff (lget default buffers b) (lget default buffers a) with _ | w
    · exact h2
    · exact mem_insertOverlap_of_mem _ _ _ h2
  · apply lget_lset_mem _ _ _ _ _ _ h
    intro o2 h2
    rcases eff (lget default buffers a) (lget default buffers b) with _ | v
    · exact h2
    · exact mem_insertOverlap_of_mem _ _ _ h2

theorem recordOverlaps_mono (eff : Buffer → Buffer → Option Int) (buffers : List Buffer)
    (b : Nat) (actives : List Nat) (od : List (List Overlap)) (x : Nat) (o : Overlap)
    (h : o ∈ lget [] od x) : o ∈ lget [] (recordOverlaps eff buffers b actives od) x := by
  unfold recordOverlaps
  induction actives generalizing od with
  | nil => exact h
  | cons c cs ih =>
    simp only [List.foldl_cons]
    exact ih _ (recordPair_mono eff buffers b od c x o h)

theorem recordPair_insert_active (eff : Buffer → Buffer → Option Int) (buffers : List Buffer)
    (b : Nat) (od : List (List Overlap)) (a : Nat) (v : Int)
    (hv : eff (lget default buffers a) (lget default buffers b) = some v)
    (hl : a < od.length) :
    Overlap.mk b v ∈ lget [] (recordPair eff buffers b od a) a := by
  simp only [recordPair]
  rw [hv]
  apply lget_lset_mem
  · intro o2 h2
    rcases eff (lget default buffers b) (lget default buffers a) with _ | w
    · exact h2
    · exact mem_insertOverlap_of_mem _ _ _ h2
  · rw [lget_lset_self _ _ _ _ hl]
    exact mem_insertOverlap_self _ _

theorem recordPair_insert_buffer (eff : Buffer → Buffer → Option Int) (buffers : List Buffer)
    (b : Nat) (od : List (List Overlap)) (a : Nat) (v : Int)
    (hv : eff (lget default buffers b) (lget default buffers a) = some v)
    (hl : b < od.length) :
    Overlap.mk a v ∈ lget [] (recordPair eff buffers b od a) b := by
  simp only [recordPair]
  rw [hv]
  rw [lget_lset_self _ _ _ _ (by simpa [lset_length] using hl)]
  exact mem_insertOverlap_self _ _

theorem recordOverlaps_mem_active (eff : Buffer → Buffer → Option Int) (buffers : List Buffer)
    (b : Nat) (actives : List Nat) (od : List (List Overlap)) (a : Nat) (ha : a ∈ actives)
    (v : Int) (hv : eff (lget default buffers a) (lget default buffers b) = some v)
    (hl : a < od.length) :
    Overlap.mk b v ∈ lget [] (recordOverlaps eff buffers b actives od) a := by
  induction actives generalizing od with
  | nil => simp at ha
  | cons c cs ih =>
    unfold recordOverlaps
    simp only [List.foldl_cons]
    rcases List.mem_cons.mp ha with rfl | hmem
    · exact recordOverlaps_mono eff buffers b cs _ a _
        (recordPair_insert_active eff buffers b od a v hv hl)
    · exact ih _ hmem (by simpa [recordPair_length] using hl)

theorem recordOverlaps_mem_buffer (eff : Buffer → Buffer → Option Int) (buffers : List Buffer)
    (b : Nat) (actives : List Nat) (od : List (List Overlap)) (a : Nat) (ha : a ∈ actives)
    (v : Int) (hv : eff (lget default buffers b) (lget default buffers a) = some v)
    (hl : b < od.length) :
    Overlap.mk a v ∈ lget [] (recordOverlaps eff buffers b actives od) b := by
  induction actives generalizing od with
  | nil => simp at ha
  | cons c cs ih =>
    unfold recordOverlaps
    simp only [List.foldl_cons]
    rcases List.mem_cons.mp ha with rfl | hmem
    · exact recordOverlaps_mono eff buffers b cs _ b _
        (recordPair_insert_buffer eff buffers b od a v hv hl)
    · exact ih _ hmem (by simpa [recordPair_length] using hl)

theorem step_overlapData (eff : Buffer → Buffer → Option Int) (buffers : List Buffer)
    (st : SweepState) (pt : Point) :
    (step eff buffers st pt).overlapData =
      (if pt.point_type = PointType.kLeft ∨
          (pt.point_type = PointType.kLeftGap ∧ pt.window = none) then
        recordOverlaps eff buffers pt.buffer_idx st.actives st.overlapData
      else st.overlapData) := by
  have h := step_od eff eff buffers st st.overlapData pt
  have he : { st with overlapData := st.overlapData } = st := rfl
  rw [he] at h
  rw [h]

/-- C2, counterexample: in `emptyGapStartProblem` (buffer 0 with an empty
gap `[3,7)`, buffer 1 alive over `[2,8)`), the third sorted event is the
empty-gap-start of buffer 0 at time 3; immediately before it the actives
set is `{0, 1}`, and processing it removes buffer 0 from the actives set
(sweeper.cc:139-141) instead of pairing buffer 0 against the actives and
adding it as the claim states for empty-gap-start events. -/
theorem claim_C2_counterexample :
    lget ⟨0, 0, PointType.kLeft, none⟩ (sortedPoints emptyGapStartProblem) 2 =
        ⟨0, 3, PointType.kRightGap, none⟩ ∧
      (((sortedPoints emptyGapStartProblem).take 2).foldl
          (step effSum emptyGapStartProblem.buffers)
          (initState emptyGapStartProblem.buffers)).actives = [0, 1] ∧
      (((sortedPoints emptyGapStartProblem).take 3).foldl
          (step effSum emptyGapStartProblem.buffers)
          (initState emptyGapStartProblem.buffers)).actives = [1] := by
  decide

/-- C2, amended: on every true-start (`kLeft`) or empty-gap-END (`kLeftGap`
without window) event for a buffer B, the loop body pairs B against every
buffer A in `actives` as of loop entry (before B is inserted), recording an
overlap entry on A's overlap set whenever the collaborator returns an
effective size for A paired with B, and on B's overlap set whenever it
returns one for B paired with A; then B is added to `actives`, and a
true-start additionally adds B to `alive` and appends B to the current
partition's buffer list. -/
theorem claim_C2_activation_effects (eff : Buffer → Buffer → Option Int)
    (buffers : List Buffer) (st : SweepState) (pt : Point)
    (hk : pt.point_type = PointType.kLeft ∨
      (pt.point_type = PointType.kLeftGap ∧ pt.window = none)) :
    (step eff buffers st pt).actives = insertSorted pt.buffer_idx st.actives ∧
      (step eff buffers st pt).alive =
        (if pt.point_type = PointType.kLeft then insertSorted pt.buffer_idx st.alive
         else st.alive) ∧
      (step eff buffers st pt).partitions =
        (let opened := if st.alive = [] then st.partitions ++ [⟨[], ⟨0, 0⟩⟩] else st.partitions
         if pt.point_type = PointType.kLeft then pushLastIdx pt.buffer_idx opened else opened) ∧
      (∀ a ∈ st.actives, ∀ v : Int,
        eff (lget default buffers a) (lget default buffers pt.buffer_idx) = some v →
        a < st.overlapData.length →
        Overlap.mk pt.buffer_idx v ∈ lget [] (step eff buffers st pt).overlapData a) ∧
      (∀ a ∈ st.actives, ∀ v : Int,
        eff (lget default buffers pt.buffer_idx) (lget default buffers a) = some v →
        pt.buffer_idx < st.overlapData.length →
        Overlap.mk a v ∈ lget [] (step eff buffers st pt).overlapData pt.buffer_idx) := by
  have hod : (step eff buffers st pt).overlapData =
      recordOverlaps eff buffers pt.buffer_idx st.actives st.overlapData := by
    rw [step_overlapData, if_pos hk]
  refine ⟨?_, ?_, ?_, ?_, ?_⟩
  · rcases pt with ⟨b, t, ty, w⟩
    rcases hk with hL | ⟨hT, hW⟩
    · cases hL
      rw [step_kLeft]
      dsimp only
      split_ifs <;> rfl
    · cases hT
      cases hW
      rw [step_emptyLeftGap]
      dsimp only
      split_ifs <;> rfl
  · rcases pt with ⟨b, t, ty, w⟩
    rcases hk with hL | ⟨hT, hW⟩
    · cases hL
      rw [step_kLeft]
      dsimp only
      split_ifs <;> first | rfl | tauto
    · cases hT
      cases hW
      rw [step_emptyLeftGap]
      dsimp only
      split_ifs <;> first | rfl | tauto
  · rcases pt with ⟨b, t, ty, w⟩
    rcases hk with hL | ⟨hT, hW⟩
    · cases hL
      rw [step_kLeft]
      dsimp only
      split_ifs <;> first | rfl | tauto
    · cases hT
      cases hW
      rw [step_emptyLeftGap]
      dsimp only
      split_ifs <;> first | rfl | tauto
  · intro a ha v hv hl
    rw [hod]
    exact recordOverlaps_mem_active eff buffers pt.buffer_idx st.actives st.overlapData
      a ha v hv hl
  · intro a ha v hv hl
    rw [hod]
    exact recordOverlaps_mem_buffer eff buffers pt.buffer_idx st.actives st.overlapData
      a ha v hv hl

/-- Witness for C2 at a concrete mid-sweep state: buffer 1's true start at
time 2 in `emptyGapStartProblem`, with buffer 0 active. -/
theorem claim_C2_activation_effects_witness :
    (PointType.kLeft = PointType.kLeft ∨
        (PointType.kLeft = PointType.kLeftGap ∧ (none : Option Window) = none)) ∧
      ((step effSum emptyGapStartProblem.buffers c2PrefixState
            ⟨1, 2, PointType.kLeft, none⟩).actives = insertSorted 1 c2PrefixState.actives ∧
        (step effSum emptyGapStartProblem.buffers c2PrefixState
            ⟨1, 2, PointType.kLeft, none⟩).alive =
          (if PointType.kLeft = PointType.kLeft then insertSorted 1 c2PrefixState.alive
           else c2PrefixState.alive) ∧
        (step effSum emptyGapStartProblem.buffers c2PrefixState
            ⟨1, 2, PointType.kLeft, none⟩).partitions =
          (let opened := if c2PrefixState.alive = [] then
              c2PrefixState.partitions ++ [⟨[], ⟨0, 0⟩⟩] else c2PrefixState.partitions
           if PointType.kLeft = PointType.kLeft then pushLastIdx 1 opened else opened) ∧
        (∀ a ∈ c2PrefixState.actives, ∀ v : Int,
          effSum (lget default emptyGapStartProblem.buffers a)
              (lget default emptyGapStartProblem.buffers 1) = some v →
          a < c2PrefixState.overlapData.length →
          Overlap.mk 1 v ∈ lget []
            (step effSum emptyGapStartProblem.buffers c2PrefixState
              ⟨1, 2, PointType.kLeft, none⟩).overlapData a) ∧
        (∀ a ∈ c2PrefixState.actives, ∀ v : Int,
          effSum (lget default emptyGapStartProblem.buffers 1)
              (lget default emptyGapStartProblem.buffers a) = some v →
          (1 : Nat) < c2PrefixState.overlapData.length →
          Overlap.mk a v ∈ lget []
            (step effSum emptyGapStartProblem.buffers c2PrefixState
              ⟨1, 2, PointType.kLeft, none⟩).overlapData 1)) :=
  ⟨Or.inl rfl,
    claim_C2_activation_effects effSum emptyGapStartProblem.buffers c2PrefixState
      ⟨1, 2, PointType.kLeft, none⟩ (Or.inl rfl)⟩

/-! ### C8: an empty gap splits a buffer into two spans and suspends it -/

theorem recordOverlaps_nil (eff : Buffer → Buffer → Option Int) (buffers : List Buffer)
    (b : Nat) (od : List (List Overlap)) : recordOverlaps eff buffers b [] od = od := rfl

/-- For buffer A `[0,10)` with empty gap `[3,7)` and buffer B `[l,u)` lying
inside the gap, the sorted event order is fixed: A's start, A's gap start,
B's start, B's end, A's gap end, A's end. -/
theorem sortedPoints_emptyGap (l u s : Int) (h3 : 3 ≤ l) (hlu : l < u) (h7 : u ≤ 7) :
    sortedPoints (emptyGapProblem l u s) =
      [⟨0, 0, .kLeft, none⟩, ⟨0, 3, .kRightGap, none⟩, ⟨1, l, .kLeft, none⟩,
       ⟨1, u, .kRight, none⟩, ⟨0, 7, .kLeftGap, none⟩, ⟨0, 10, .kRight, none⟩] := by
  have hl : l = 3 ∨ l = 4 ∨ l = 5 ∨ l = 6 := by omega
  have hu : u = 4 ∨ u = 5 ∨ u = 6 ∨ u = 7 := by omega
  rcases hl with rfl | rfl | rfl | rfl <;> rcases hu with rfl | rfl | rfl | rfl <;>
    first
      | rfl
      | omega

/-- C8: for buffer A with lifespan `[0,10)` and a single windowless gap
`[3,7)`, together with any buffer B whose lifespan `[l,u)` lies entirely
within `[3,7)` (any size, any `effective_size` collaborator), Sweep emits
exactly two SectionSpans for A — one before the gap (sections `[0,1)`) and
one after it (sections `[2,3)`), both carrying A's full window — A is absent
from `actives` throughout `[3,7)` (i.e. in each prefix state after the 2nd,
3rd and 4th sorted events, whose times lie in `[3,7)`), and no overlap entry
is recorded at all: in particular B has none referencing A and A has none
referencing B. -/
theorem claim_C8_empty_gap_isolation (eff : Buffer → Buffer → Option Int) (l u s : Int)
    (h3 : 3 ≤ l) (hlu : l < u) (h7 : u ≤ 7) :
    (lget ⟨[], []⟩ (Sweep eff (emptyGapProblem l u s)).buffer_data 0).section_spans =
      [⟨⟨0, 1⟩, ⟨0, 10⟩⟩, ⟨⟨2, 3⟩, ⟨0, 10⟩⟩] ∧
    0 ∉ (((sortedPoints (emptyGapProblem l u s)).take 2).foldl
        (step eff (emptyGapProblem l u s).buffers)
        (initState (emptyGapProblem l u s).buffers)).actives ∧
    0 ∉ (((sortedPoints (emptyGapProblem l u s)).take 3).foldl
        (step eff (emptyGapProblem l u s).buffers)
        (initState (emptyGapProblem l u s).buffers)).actives ∧
    0 ∉ (((sortedPoints (emptyGapProblem l u s)).take 4).foldl
        (step eff (emptyGapProblem l u s).buffers)
        (initState (emptyGapProblem l u s).buffers)).actives ∧
    (Sweep eff (emptyGapProblem l u s)).buffer_data.map (fun d => d.overlaps) = [[], []] := by
  have hpts := sortedPoints_emptyGap l u s h3 hlu h7
  have h3u : (3 : Int) < u := by omega
  have hune : ¬(u = -1) := by omega
  have hu10 : u < 10 := by omega
  have e0 : initState (emptyGapProblem l u s).buffers =
      ⟨[], [], -1, 0, [-1, -1], [⟨0, 10⟩, ⟨0, s⟩], [], [], [[], []], [[], []]⟩ := rfl
  have e1 : step eff (emptyGapProblem l u s).buffers
      ⟨[], [], -1, 0, [-1, -1], [⟨0, 10⟩, ⟨0, s⟩], [], [], [[], []], [[], []]⟩
      ⟨0, 0, .kLeft, none⟩ =
      ⟨[0], [0], 0, 0, [0, -1], [⟨0, 10⟩, ⟨0, s⟩], [], [⟨[0], ⟨0, 0⟩⟩], [[], []], [[], []]⟩ := by
    rw [step_kLeft]
    norm_num [insertSorted, lset, lget, pushLastIdx, recordOverlaps]
  have e2 : step eff (emptyGapProblem l u s).buffers
      ⟨[0], [0], 0, 0, [0, -1], [⟨0, 10⟩, ⟨0, s⟩], [], [⟨[0], ⟨0, 0⟩⟩], [[], []], [[], []]⟩
      ⟨0, 3, .kRightGap, none⟩ =
      ⟨[], [0], 3, 0, [-1, -1], [⟨0, 10⟩, ⟨0, s⟩], [[0]], [⟨[0], ⟨0, 0⟩⟩],
        [[⟨⟨0, 1⟩, ⟨0, 10⟩⟩], []], [[], []]⟩ := by
    rw [step_emptyRightGap]
    norm_num [flushAt, closeSpanAt, lget, lset, List.erase, setLastRange]
  have e3 : step eff (emptyGapProblem l u s).buffers
      ⟨[], [0], 3, 0, [-1, -1], [⟨0, 10⟩, ⟨0, s⟩], [[0]], [⟨[0], ⟨0, 0⟩⟩],
        [[⟨⟨0, 1⟩, ⟨0, 10⟩⟩], []], [[], []]⟩
      ⟨1, l, .kLeft, none⟩ =
      ⟨[1], [0, 1], 3, 0, [-1, 1], [⟨0, 10⟩, ⟨0, s⟩], [[0]], [⟨[0, 1], ⟨0, 0⟩⟩],
        [[⟨⟨0, 1⟩, ⟨0, 10⟩⟩], []], [[], []]⟩ := by
    rw [step_kLeft]
    norm_num [insertSorted, lset, lget, pushLastIdx, recordOverlaps]
  have e4 : step eff (emptyGapProblem l u s).buffers
      ⟨[1], [0, 1], 3, 0, [-1, 1], [⟨0, 10⟩, ⟨0, s⟩], [[0]], [⟨[0, 1], ⟨0, 0⟩⟩],
        [[⟨⟨0, 1⟩, ⟨0, 10⟩⟩], []], [[], []]⟩
      ⟨1, u, .kRight, none⟩ =
      ⟨[], [0], u, 0, [-1, -1], [⟨0, 10⟩, ⟨0, s⟩], [[0], [1]], [⟨[0, 1], ⟨0, 0⟩⟩],
        [[⟨⟨0, 1⟩, ⟨0, 10⟩⟩], [⟨⟨1, 2⟩, ⟨0, s⟩⟩]], [[], []]⟩ := by
    rw [step_kRight]
    norm_num [flushAt, closeSpanAt, lget, lset, List.erase, h3u]
  have e5 : step eff (emptyGapProblem l u s).buffers
      ⟨[], [0], u, 0, [-1, -1], [⟨0, 10⟩, ⟨0, s⟩], [[0], [1]], [⟨[0, 1], ⟨0, 0⟩⟩],
        [[⟨⟨0, 1⟩, ⟨0, 10⟩⟩], [⟨⟨1, 2⟩, ⟨0, s⟩⟩]], [[], []]⟩
      ⟨0, 7, .kLeftGap, none⟩ =
      ⟨[0], [0], u, 0, [2, -1], [⟨0, 10⟩, ⟨0, s⟩], [[0], [1]], [⟨[0, 1], ⟨0, 0⟩⟩],
        [[⟨⟨0, 1⟩, ⟨0, 10⟩⟩], [⟨⟨1, 2⟩, ⟨0, s⟩⟩]], [[], []]⟩ := by
    rw [step_emptyLeftGap]
    norm_num [insertSorted, lset, lget, recordOverlaps, hune]
  have e6 : step eff (emptyGapProblem l u s).buffers
      ⟨[0], [0], u, 0, [2, -1], [⟨0, 10⟩, ⟨0, s⟩], [[0], [1]], [⟨[0, 1], ⟨0, 0⟩⟩],
        [[⟨⟨0, 1⟩, ⟨0, 10⟩⟩], [⟨⟨1, 2⟩, ⟨0, s⟩⟩]], [[], []]⟩
      ⟨0, 10, .kRight, none⟩ =
      ⟨[], [], 10, 3, [-1, -1], [⟨0, 10⟩, ⟨0, s⟩], [[0], [1], [0]], [⟨[0, 1], ⟨0, 3⟩⟩],
        [[⟨⟨0, 1⟩, ⟨0, 10⟩⟩, ⟨⟨2, 3⟩, ⟨0, 10⟩⟩], [⟨⟨1, 2⟩, ⟨0, s⟩⟩]], [[], []]⟩ := by
    rw [step_kRight]
    norm_num [flushAt, closeSpanAt, lget, lset, List.erase, setLastRange, hune, hu10]
  refine ⟨?_, ?_, ?_, ?_, ?_⟩
  · simp only [Sweep]
    rw [hpts]
    simp only [List.foldl_cons, List.foldl_nil]
    rw [e0, e1, e2, e3, e4, e5, e6]
    rfl
  · rw [hpts]
    simp only [List.take_succ_cons, List.take_zero, List.foldl_cons, List.foldl_nil]
    rw [e0, e1, e2]
    simp
  · rw [hpts]
    simp only [List.take_succ_cons, List.take_zero, List.foldl_cons, List.foldl_nil]
    rw [e0, e1, e2, e3]
    simp
  · rw [hpts]
    simp only [List.take_succ_cons, List.take_zero, List.foldl_cons, List.foldl_nil]
    rw [e0, e1, e2, e3, e4]
    simp
  · simp only [Sweep]
    rw [hpts]
    simp only [List.foldl_cons, List.foldl_nil]
    rw [e0, e1, e2, e3, e4, e5, e6]
    rfl

/-- Witness for C8 at B = `[4,6)` of size 5 with the trivial collaborator. -/
theorem claim_C8_empty_gap_isolation_witness :
    (3 : Int) ≤ 4 ∧ (4 : Int) < 6 ∧ (6 : Int) ≤ 7 ∧
    ((lget ⟨[], []⟩ (Sweep effNone (emptyGapProblem 4 6 5)).buffer_data 0).section_spans =
        [⟨⟨0, 1⟩, ⟨0, 10⟩⟩, ⟨⟨2, 3⟩, ⟨0, 10⟩⟩] ∧
      0 ∉ (((sortedPoints (emptyGapProblem 4 6 5)).take 2).foldl
          (step effNone (emptyGapProblem 4 6 5).buffers)
          (initState (emptyGapProblem 4 6 5).buffers)).actives ∧
      0 ∉ (((sortedPoints (emptyGapProblem 4 6 5)).take 3).foldl
          (step effNone (emptyGapProblem 4 6 5).buffers)
          (initState (emptyGapProblem 4 6 5).buffers)).actives ∧
      0 ∉ (((sortedPoints (emptyGapProblem 4 6 5)).take 4).foldl
          (step effNone (emptyGapProblem 4 6 5).buffers)
          (initState (emptyGapProblem 4 6 5).buffers)).actives ∧
      (Sweep effNone (emptyGapProblem 4 6 5)).buffer_data.map (fun d => d.overlaps) =
        [[], []]) :=
  ⟨by norm_num, by norm_num, by norm_num,
    claim_C8_empty_gap_isolation effNone 4 6 5 (by norm_num) (by norm_num) (by norm_num)⟩


/-! ## The loop invariant: lemmas, preservation and the full-run claims -/

/-! Helper lemmas. -/

theorem tiles_le : ∀ (qs : List Partition) (lo hi : Int), tiles qs lo hi → lo ≤ hi
  | [], lo, hi, h => le_of_eq h
  | q :: qs, lo, hi, h => by
      obtain ⟨h1, h2, h3⟩ := h
      exact le_trans h2 (tiles_le qs _ hi h3)

theorem tiles_mem_le : ∀ (qs : List Partition) (lo hi : Int), tiles qs lo hi →
    ∀ q ∈ qs, q.section_range.lower ≤ q.section_range.upper
  | [], _, _, _, _, hq => absurd hq (List.not_mem_nil _)
  | q :: qs, lo, hi, h, r, hr => by
      obtain ⟨h1, h2, h3⟩ := h
      rcases List.mem_cons.1 hr with rfl | hr
      · rw [h1]; exact h2
      · exact tiles_mem_le qs _ hi h3 r hr

theorem tiles_append : ∀ (qs : List Partition) (lo L U : Int) (bs : List Nat),
    tiles qs lo L → L ≤ U → tiles (qs ++ [⟨bs, ⟨L, U⟩⟩]) lo U
  | [], lo, L, U, bs, h, hLU => by
      have hLo : lo = L := h
      subst hLo
      exact ⟨rfl, hLU, rfl⟩
  | q :: qs, lo, L, U, bs, h, hLU => by
      obtain ⟨h1, h2, h3⟩ := h
      exact ⟨h1, h2, tiles_append qs _ L U bs h3 hLU⟩

theorem setLastRange_append (r : SectionRange) :
    ∀ (xs : List Partition) (q : Partition),
      setLastRange r (xs ++ [q]) = xs ++ [{ q with section_range := r }]
  | [], q => rfl
  | [x], q => rfl
  | x :: y :: xs, q => congrArg (x :: ·) (setLastRange_append r (y :: xs) q)

theorem pushLastIdx_append (b : Nat) :
    ∀ (xs : List Partition) (q : Partition),
      pushLastIdx b (xs ++ [q]) = xs ++ [{ q with buffer_idxs := q.buffer_idxs ++ [b] }]
  | [], q => rfl
  | [x], q => rfl
  | x :: y :: xs, q => congrArg (x :: ·) (pushLastIdx_append b (y :: xs) q)

theorem spanOK_mono {l : List SectionSpan} {b1 b2 : Int} (h : spanOK l b1) (hb : b1 ≤ b2) :
    spanOK l b2 :=
  ⟨fun sp hsp => ⟨(h.1 sp hsp).1, le_trans (h.1 sp hsp).2 hb⟩, h.2⟩

theorem spanOK_push {l : List SectionSpan} {S0 U : Int} (w : Window)
    (h : spanOK l S0) (hU : S0 < U) :
    spanOK (l ++ [⟨⟨S0, U⟩, w⟩]) U := by
  constructor
  · intro sp hsp
    rcases List.mem_append.1 hsp with hsp | hsp
    · exact ⟨(h.1 sp hsp).1, le_trans (h.1 sp hsp).2 (le_of_lt hU)⟩
    · rcases List.mem_singleton.1 hsp with rfl
      exact ⟨hU, le_refl U⟩
  · rw [List.pairwise_append]
    refine ⟨h.2, List.pairwise_singleton _ _, ?_⟩
    intro sp hsp sq hsq
    rcases List.mem_singleton.1 hsq with rfl
    exact (h.1 sp hsp).2

theorem mem_insertSorted (x : Nat) : ∀ (l : List Nat) (y : Nat),
    y ∈ insertSorted x l ↔ y = x ∨ y ∈ l
  | [], y => by simp [insertSorted]
  | z :: l, y => by
      simp only [insertSorted]
      split_ifs with h1 h2
      · simp [or_comm, List.mem_cons]
      · subst h2; simp [List.mem_cons]
      · simp only [List.mem_cons, mem_insertSorted x l y]
        tauto

theorem pairwise_insertSorted (x : Nat) : ∀ (l : List Nat),
    l.Pairwise (· < ·) → (insertSorted x l).Pairwise (· < ·)
  | [], _ => List.pairwise_singleton _ _
  | z :: l, h => by
      obtain ⟨hz, hl⟩ := List.pairwise_cons.1 h
      simp only [insertSorted]
      split_ifs with h1 h2
      · exact List.pairwise_cons.2 ⟨by
          intro y hy
          rcases List.mem_cons.1 hy with rfl | hy
          · exact h1
          · exact lt_trans h1 (hz y hy), h⟩
      · exact h
      · refine List.pairwise_cons.2 ⟨?_, pairwise_insertSorted x l hl⟩
        intro y hy
        rcases (mem_insertSorted x l y).1 hy with rfl | hy
        · omega
        · exact hz y hy

/-! Establishment of the invariant at the initial state. -/

theorem gapPts_idx (idx : Nat) : ∀ (gs : List Gap), ∀ q ∈ gapPts idx gs, q.buffer_idx = idx
  | [], q, hq => absurd hq (List.not_mem_nil _)
  | g :: gs, q, hq => by
      simp only [gapPts, List.mem_cons] at hq
      rcases hq with rfl | rfl | hq
      · rfl
      · rfl
      · exact gapPts_idx idx gs q hq

theorem bufferPts_idx (idx : Nat) (bf : Buffer) : ∀ q ∈ bufferPts idx bf, q.buffer_idx = idx := by
  intro q hq
  simp only [bufferPts, List.mem_cons, List.mem_append, List.mem_singleton,
    List.not_mem_nil, or_false] at hq
  rcases hq with rfl | hq | rfl
  · rfl
  · exact gapPts_idx idx bf.gaps q hq
  · rfl

theorem gapPts_chain (idx : Nat) : ∀ (gs : List Gap) (prev e : Int),
    wfGaps prev gs e = true →
    (gapPts idx gs ++ [(⟨idx, e, .kRight, none⟩ : Point)]).Pairwise
      (fun x y => x.time_value < y.time_value) ∧
    (∀ q ∈ gapPts idx gs ++ [(⟨idx, e, .kRight, none⟩ : Point)], prev < q.time_value)
  | [], prev, e, h => by
      simp only [wfGaps, decide_eq_true_eq] at h
      simp only [gapPts, List.nil_append]
      constructor
      · exact List.pairwise_singleton _ _
      · intro q hq
        rcases List.mem_singleton.1 hq with rfl
        exact h
  | g :: gs, prev, e, h => by
      simp only [wfGaps, Bool.and_eq_true, decide_eq_true_eq] at h
      obtain ⟨⟨h1, h2⟩, h3⟩ := h
      obtain ⟨ihpw, ihmem⟩ := gapPts_chain idx gs g.lifespan.upper e h3
      have hshape : gapPts idx (g :: gs) ++ [(⟨idx, e, .kRight, none⟩ : Point)] =
          ⟨idx, g.lifespan.lower, .kRightGap, g.window⟩ ::
            (⟨idx, g.lifespan.upper, .kLeftGap, g.window⟩ ::
              (gapPts idx gs ++ [⟨idx, e, .kRight, none⟩])) := rfl
      rw [hshape]
      constructor
      · refine List.pairwise_cons.2 ⟨?_, List.pairwise_cons.2 ⟨?_, ihpw⟩⟩
        · intro q hq
          rcases List.mem_cons.1 hq with rfl | hq
          · exact h2
          · exact lt_trans h2 (ihmem q hq)
        · intro q hq
          exact ihmem q hq
      · intro q hq
        rcases List.mem_cons.1 hq with rfl | hq
        · exact h1
        rcases List.mem_cons.1 hq with rfl | hq
        · exact lt_trans h1 h2
        · exact lt_trans h1 (lt_trans h2 (ihmem q hq))

theorem bufferPts_chain (b : Nat) (bf : Buffer) (h : wfBuffer bf = true) :
    (bufferPts b bf).Pairwise (fun x y => x.time_value < y.time_value) ∧
    (∀ q ∈ bufferPts b bf, 0 ≤ q.time_value) := by
  simp only [wfBuffer, Bool.and_eq_true, decide_eq_true_eq] at h
  obtain ⟨⟨h0, _⟩, hg⟩ := h
  obtain ⟨hpw, hmem⟩ := gapPts_chain b bf.gaps bf.lifespan.lower bf.lifespan.upper hg
  constructor
  · exact List.pairwise_cons.2 ⟨fun q hq => hmem q hq, hpw⟩
  · intro q hq
    rcases List.mem_cons.1 hq with rfl | hq
    · exact h0
    · exact le_of_lt (lt_of_le_of_lt h0 (hmem q hq))

theorem lget_eq_getElem (d : α) : ∀ (l : List α) (n : Nat) (h : n < l.length),
    lget d l n = l[n]
  | a :: _, 0, _ => rfl
  | _ :: l, n + 1, h => lget_eq_getElem d l n (Nat.lt_of_succ_lt_succ h)

theorem lget_mem (d : α) (l : List α) (n : Nat) (h : n < l.length) : lget d l n ∈ l := by
  rw [lget_eq_getElem d l n h]
  exact List.getElem_mem h

theorem enumFrom_fst_ge : ∀ (bs : List Buffer) (k : Nat) (ib : Nat × Buffer),
    ib ∈ List.enumFrom k bs → k ≤ ib.1
  | [], _, _, h => absurd h (List.not_mem_nil _)
  | a :: bs, k, ib, h => by
      rcases List.mem_cons.1 h with rfl | h
      · exact le_refl k
      · exact Nat.le_of_succ_le (enumFrom_fst_ge bs (k + 1) ib h)

theorem filter_chunks (b : Nat) : ∀ (bs : List Buffer) (k : Nat), k ≤ b → b < k + bs.length →
    ((List.enumFrom k bs).map (fun ib => bufferPts ib.1 ib.2)).flatten.filter
        (fun q => q.buffer_idx = b) =
      bufferPts b (lget default bs (b - k))
  | [], k, hk, hb => by
      simp only [List.length_nil] at hb
      omega
  | a :: bs, k, hk, hb => by
      simp only [List.enumFrom, List.map_cons, List.flatten_cons, List.filter_append]
      rcases Nat.eq_or_lt_of_le hk with rfl | hkb
      · have h1 : (bufferPts k a).filter (fun q => q.buffer_idx = k) = bufferPts k a := by
          rw [List.filter_eq_self]
          intro q hq
          simp [bufferPts_idx k a q hq]
        have h2 : ((List.enumFrom (k + 1) bs).map (fun ib => bufferPts ib.1 ib.2)).flatten.filter
            (fun q => q.buffer_idx = k) = [] := by
          rw [List.filter_eq_nil_iff]
          intro q hq
          obtain ⟨chunk, hchunk, hqc⟩ := List.mem_flatten.1 hq
          obtain ⟨ib, hib, rfl⟩ := List.mem_map.1 hchunk
          have hge : k + 1 ≤ ib.1 := enumFrom_fst_ge bs (k + 1) ib hib
          have hqi := bufferPts_idx ib.1 ib.2 q hqc
          simp only [hqi, decide_eq_true_eq]
          omega
        rw [h1, h2, Nat.sub_self]
        simp [lget]
      · have h1 : (bufferPts k a).filter (fun q => q.buffer_idx = b) = [] := by
          rw [List.filter_eq_nil_iff]
          intro q hq
          have hqi := bufferPts_idx k a q hq
          simp only [hqi, decide_eq_true_eq]
          omega
        have h2 := filter_chunks b bs (k + 1) hkb (by
          simp only [List.length_cons] at hb
          omega)
        rw [h1, h2]
        have hsub : b - k = (b - (k + 1)) + 1 := by omega
        rw [hsub]
        simp [lget]

theorem mem_problemPoints_bound : ∀ (bs : List Buffer) (k : Nat),
    (∀ bf ∈ bs, wfBuffer bf = true) →
    ∀ q ∈ ((List.enumFrom k bs).map (fun ib => bufferPts ib.1 ib.2)).flatten,
      q.buffer_idx < k + bs.length ∧ 0 ≤ q.time_value
  | [], k, _, q, hq => by simp at hq
  | a :: bs, k, hall, q, hq => by
      simp only [List.enumFrom, List.map_cons, List.flatten_cons, List.mem_append] at hq
      rcases hq with hq | hq
      · have hidx := bufferPts_idx k a q hq
        have ht := (bufferPts_chain k a (hall a (List.mem_cons_self a bs))).2 q hq
        constructor
        · simp only [hidx, List.length_cons]
          omega
        · exact ht
      · have hr := mem_problemPoints_bound bs (k + 1)
          (fun bf hbf => hall bf (List.mem_cons_of_mem a hbf)) q hq
        constructor
        · have := hr.1
          simp only [List.length_cons]
          omega
        · exact hr.2

theorem pairwise_lt_of_le_nodup : ∀ (l : List Point),
    l.Pairwise (fun x y => x.time_value ≤ y.time_value) →
    (l.map Point.time_value).Nodup →
    l.Pairwise (fun x y => x.time_value < y.time_value)
  | [], _, _ => List.Pairwise.nil
  | a :: l, hle, hnd => by
      obtain ⟨ha, hl⟩ := List.pairwise_cons.1 hle
      simp only [List.map_cons, List.nodup_cons] at hnd
      obtain ⟨hnotin, hnd2⟩ := hnd
      refine List.pairwise_cons.2 ⟨?_, pairwise_lt_of_le_nodup l hl hnd2⟩
      intro q hq
      refine lt_of_le_of_ne (ha q hq) ?_
      intro heq
      exact hnotin (heq ▸ List.mem_map_of_mem Point.time_value hq)

theorem filter_sortedPoints (p : Problem) (hwf : wfProblem p = true) (b : Nat)
    (hb : b < p.buffers.length) :
    (sortedPoints p).filter (fun q => q.buffer_idx = b) =
      bufferPts b (lget default p.buffers b) := by
  have hwfb : wfBuffer (lget default p.buffers b) = true :=
    List.all_eq_true.1 hwf _ (lget_mem default p.buffers b hb)
  have hA : (problemPoints p).filter (fun q => q.buffer_idx = b) =
      bufferPts b (lget default p.buffers b) := by
    have henum : p.buffers.enum = List.enumFrom 0 p.buffers := rfl
    have hc := filter_chunks b p.buffers 0 (Nat.zero_le b) (by omega)
    simp only [problemPoints, henum]
    simpa using hc
  have hperm : List.Perm ((sortedPoints p).filter (fun q => q.buffer_idx = b))
      (bufferPts b (lget default p.buffers b)) := by
    have h1 : List.Perm ((sortedPoints p).filter (fun q => q.buffer_idx = b))
        ((problemPoints p).filter (fun q => q.buffer_idx = b)) :=
      (List.perm_insertionSort ptR (problemPoints p)).filter _
    rw [hA] at h1
    exact h1
  obtain ⟨htgt_pw, _⟩ := bufferPts_chain b (lget default p.buffers b) hwfb
  have hweak : (sortedPoints p).Pairwise (fun x y => x.time_value ≤ y.time_value) := by
    refine (sortedPoints_sorted_specOrder p).imp ?_
    intro x y hxy
    rcases hxy with h | ⟨h, _⟩
    · exact le_of_lt h
    · exact le_of_eq h
  have hfil_weak := hweak.filter (fun q => decide (q.buffer_idx = b))
  have htgt_nodup : ((bufferPts b (lget default p.buffers b)).map Point.time_value).Nodup := by
    refine List.Pairwise.imp ?_ (List.pairwise_map.2 htgt_pw)
    intro x y h
    exact ne_of_lt h
  have hfil_nodup : (((sortedPoints p).filter (fun q => q.buffer_idx = b)).map
      Point.time_value).Nodup := ((hperm.map Point.time_value).nodup_iff).2 htgt_nodup
  have hfil_strict := pairwise_lt_of_le_nodup _ hfil_weak hfil_nodup
  haveI : IsAntisymm Point (fun x y => x.time_value < y.time_value) :=
    ⟨fun a c h1 h2 => absurd h2 (not_lt.2 (le_of_lt h1))⟩
  exact List.eq_of_perm_of_sorted hperm hfil_strict htgt_pw

theorem Inv_init (p : Problem) (hwf : wfProblem p = true) :
    Inv p.buffers (initState p.buffers) (sortedPoints p)
      (fun b => BMode.notStarted (lget default p.buffers b)) := by
  have hmem : ∀ q ∈ sortedPoints p, q.buffer_idx < p.buffers.length ∧ 0 ≤ q.time_value := by
    intro q hq
    have hq2 : q ∈ problemPoints p := (List.perm_insertionSort ptR (problemPoints p)).mem_iff.1 hq
    have henum : p.buffers.enum = List.enumFrom 0 p.buffers := rfl
    have hq3 : q ∈ ((List.enumFrom 0 p.buffers).map (fun ib => bufferPts ib.1 ib.2)).flatten := by
      simpa [problemPoints, henum] using hq2
    have := mem_problemPoints_bound p.buffers 0
      (fun bf hbf => List.all_eq_true.1 hwf bf hbf) q hq3
    simpa using this
  refine ⟨fun q hq => (hmem q hq).1, ?_, ?_, fun _ => rfl, by simp [initState],
    by simp [initState], List.Pairwise.nil, ?_, ?_, ?_⟩
  · intro q hq
    refine ⟨(hmem q hq).2, ?_⟩
    have h0 := (hmem q hq).2
    show (-1 : Int) ≤ q.time_value
    exact le_trans (by norm_num) h0
  · refine (sortedPoints_sorted_specOrder p).imp ?_
    intro x y hxy
    rcases hxy with h | ⟨h, _⟩
    · exact le_of_lt h
    · exact le_of_eq h
  · intro x
    simp [initState, BMode.isStarted]
  · intro b hb
    refine ⟨filter_sortedPoints p hwf b hb, ?_, ?_⟩
    · exact (bufferPts_chain b (lget default p.buffers b)
        (List.all_eq_true.1 hwf _ (lget_mem default p.buffers b hb))).1
    · show closedInvP (lget (-1) (initState p.buffers).secStart b) _
          (lget [] (initState p.buffers).spanData b)
      have hsec : lget (-1) (initState p.buffers).secStart b = -1 := by
        show lget (-1) (List.replicate p.buffers.length (-1)) b = -1
        simp [lget_replicate]
      have hspan : lget [] (initState p.buffers).spanData b = ([] : List SectionSpan) := by
        show lget [] (List.replicate p.buffers.length []) b = []
        simp [lget_replicate]
      rw [hspan]
      refine ⟨hsec, ?_, List.Pairwise.nil⟩
      intro sp hsp
      exact absurd hsp (List.not_mem_nil _)
  · exact ⟨fun _ => ⟨rfl, rfl⟩, fun h => absurd rfl h⟩

/-! Preservation of the invariant by one loop step. -/

theorem insertSorted_ne_nil (x : Nat) (l : List Nat) : insertSorted x l ≠ [] := by
  cases l with
  | nil => simp [insertSorted]
  | cons y l =>
      simp only [insertSorted]
      split_ifs <;> simp

theorem headTime_lt_of_pairwise (pt : Point) (l : List Point)
    (h : (pt :: l).Pairwise (fun x y => x.time_value < y.time_value)) (hne : l ≠ []) :
    pt.time_value < headTime l := by
  cases l with
  | nil => exact absurd rfl hne
  | cons q l => exact (List.pairwise_cons.1 h).1 q (List.mem_cons_self q l)

theorem BMode.isStarted_of_isOpen : ∀ (m : BMode), m.isOpen → m.isStarted
  | .active _ _, _ => trivial
  | .inGap (some _) _ _ _, _ => trivial

/-- `modeInv` is preserved by a state change that leaves a buffer's entries
and the section count untouched; the last-section time matters only for a
buffer with an open span. -/
theorem modeInv_frame (st st2 : SweepState) (b : Nat) (m : BMode)
    (hS : st2.sections.length = st.sections.length)
    (hsec : lget (-1) st2.secStart b = lget (-1) st.secStart b)
    (hspan : lget [] st2.spanData b = lget [] st.spanData b)
    (hlst : st2.lastSectionTime = st.lastSectionTime ∨ ¬ m.isOpen)
    (h : modeInv st b m) : modeInv st2 b m := by
  cases m with
  | notStarted buf =>
      simp only [modeInv, closedInvP] at h ⊢
      rw [hS, hsec, hspan]
      exact h
  | finished =>
      simp only [modeInv, closedInvP] at h ⊢
      rw [hS, hsec, hspan]
      exact h
  | active gs hi =>
      have hl : st2.lastSectionTime = st.lastSectionTime :=
        hlst.resolve_right (fun h2 => h2 trivial)
      simp only [modeInv, openInvP] at h ⊢
      rw [hS, hsec, hspan, hl]
      exact h
  | inGap w gu gs hi =>
      cases w with
      | none =>
          simp only [modeInv, closedInvP] at h ⊢
          rw [hS, hsec, hspan]
          exact h
      | some win =>
          have hl : st2.lastSectionTime = st.lastSectionTime :=
            hlst.resolve_right (fun h2 => h2 trivial)
          simp only [modeInv, openInvP] at h ⊢
          rw [hS, hsec, hspan, hl]
          exact h

theorem filter_cons_self (b : Nat) (t : Int) (ty : PointType) (w : Option Window)
    (l : List Point) :
    (⟨b, t, ty, w⟩ :: l).filter (fun q => q.buffer_idx = b) =
      ⟨b, t, ty, w⟩ :: l.filter (fun q => q.buffer_idx = b) := by
  simp

theorem filter_cons_other (b c : Nat) (t : Int) (ty : PointType) (w : Option Window)
    (l : List Point) (h : b ≠ c) :
    (⟨b, t, ty, w⟩ :: l).filter (fun q => q.buffer_idx = c) =
      l.filter (fun q => q.buffer_idx = c) := by
  simp [h]

theorem Inv_step_kLeft (eff : Buffer → Buffer → Option Int) (buffers : List Buffer)
    (st : SweepState) (rest : List Point) (modes : Nat → BMode)
    (b : Nat) (t : Int) (w : Option Window) (buf : Buffer)
    (hInv : Inv buffers st (⟨b, t, .kLeft, w⟩ :: rest) modes)
    (hm : modes b = .notStarted buf)
    (hrem : remOf b (modes b) =
      ⟨b, t, .kLeft, w⟩ :: remOf b (.active buf.gaps buf.lifespan.upper)) :
    Inv buffers (step eff buffers st ⟨b, t, .kLeft, w⟩) rest
      (fun x => if x = b then .active buf.gaps buf.lifespan.upper else modes x) := by
  obtain ⟨hidx, htime, hpw, hlst1, hlen1, hlen2, halivepw, haliveiff, hbuf, hparts⟩ := hInv
  have hbN : b < buffers.length :=
    hidx _ (List.mem_cons_self _ rest)
  have hbI := hbuf b hbN
  have hrest : rest.filter (fun q => q.buffer_idx = b) =
      remOf b (.active buf.gaps buf.lifespan.upper) := by
    have h1 := hbI.1
    rw [filter_cons_self, hrem] at h1
    injection h1
  have hpwb : (remOf b (modes b)).Pairwise (fun x y => x.time_value < y.time_value) := hbI.2.1
  have hnewpw : (remOf b (.active buf.gaps buf.lifespan.upper)).Pairwise
      (fun x y => x.time_value < y.time_value) := by
    rw [hrem] at hpwb
    exact hpwb.of_cons
  have hheadlt : t < headTime (remOf b (.active buf.gaps buf.lifespan.upper)) := by
    rw [hrem] at hpwb
    exact headTime_lt_of_pairwise _ _ hpwb (by simp [remOf])
  have ht0 : 0 ≤ t := (htime _ (List.mem_cons_self _ rest)).1
  have hlstt : st.lastSectionTime ≤ t := (htime _ (List.mem_cons_self _ rest)).2
  -- resolve the two conditionals of the step
  by_cases halive : st.alive = []
  all_goals
    have hstep : step eff buffers st ⟨b, t, .kLeft, w⟩ =
        { st with
          lastSectionTime := if st.lastSectionTime = -1 then t else st.lastSectionTime,
          partitions := pushLastIdx b (if st.alive = [] then
            st.partitions ++ [⟨[], ⟨0, 0⟩⟩] else st.partitions),
          actives := insertSorted b st.actives,
          alive := insertSorted b st.alive,
          secStart := lset st.secStart b (st.sections.length : Int),
          overlapData := recordOverlaps eff buffers b st.actives st.overlapData } := by
      rw [step_kLeft]
      by_cases hlstm : st.lastSectionTime = -1 <;>
        simp only [hlstm, halive, if_pos, if_neg, ite_true, ite_false] <;> rfl
  all_goals rw [hstep]
  -- the new last-section time is never the sentinel and is below all remaining times
  all_goals
    have hL1 : (if st.lastSectionTime = -1 then t else st.lastSectionTime) ≠ -1 := by
      split_ifs with h
      · omega
      · exact h
  all_goals
    have hL2 : ∀ q ∈ rest, (if st.lastSectionTime = -1 then t else st.lastSectionTime) ≤
        q.time_value := by
      intro q hq
      split_ifs with h
      · exact List.rel_of_pairwise_cons hpw hq
      · exact (htime q (List.mem_cons_of_mem _ hq)).2
  all_goals
    have hL3 : (if st.lastSectionTime = -1 then t else st.lastSectionTime) ≤ t := by
      split_ifs with h
      · exact le_refl t
      · exact hlstt
  all_goals refine ⟨?_, ?_, ?_, ?_, ?_, ?_, ?_, ?_, ?_, ?_⟩
  -- case alive = []
  · exact fun q hq => hidx q (List.mem_cons_of_mem _ hq)
  · exact fun q hq => ⟨(htime q (List.mem_cons_of_mem _ hq)).1, hL2 q hq⟩
  · exact hpw.of_cons
  · intro h
    exact absurd h hL1
  · simpa [lset_length] using hlen1
  · exact hlen2
  · exact pairwise_insertSorted b st.alive halivepw
  · intro x
    simp only [mem_insertSorted]
    constructor
    · rintro (rfl | hx)
      · exact ⟨hbN, by simp [BMode.isStarted]⟩
      · obtain ⟨hxN, hst⟩ := (haliveiff x).1 hx
        refine ⟨hxN, ?_⟩
        by_cases hxb : x = b
        · simp [hxb, BMode.isStarted]
        · simpa [hxb] using hst
    · rintro ⟨hxN, hst⟩
      by_cases hxb : x = b
      · exact Or.inl hxb
      · exact Or.inr ((haliveiff x).2 ⟨hxN, by simpa [hxb] using hst⟩)
  · intro c hc
    by_cases hcb : c = b
    · subst hcb
      have hmeq : (fun x => if x = c then BMode.active buf.gaps buf.lifespan.upper
          else modes x) c = BMode.active buf.gaps buf.lifespan.upper := by simp
      rw [hmeq]
      refine ⟨by simpa using hrest, by simpa using hnewpw, ?_⟩
      show openInvP _ (lget (-1) (lset st.secStart c (st.sections.length : Int)) c) _ _ _
      rw [lget_lset_self _ _ _ _ (hlen1 ▸ hc)]
      have hclosed : closedInvP (lget (-1) st.secStart c) ((st.sections.length : Int))
          (lget [] st.spanData c) := by
        have := hbI.2.2
        rw [hm] at this
        exact this
      refine ⟨by positivity, le_refl _, hclosed.2, Or.inl ?_⟩
      simp only [if_pos, if_neg]
      exact lt_of_le_of_lt hL3 (by simpa using hheadlt)
    · have hbI2 := hbuf c hc
      have hmeq : (fun x => if x = b then BMode.active buf.gaps buf.lifespan.upper
          else modes x) c = modes c := by simp [hcb]
      rw [hmeq]
      obtain ⟨hf2, hpw2, hmi2⟩ := hbI2
      rw [filter_cons_other b c t PointType.kLeft w rest (fun h => hcb h.symm)] at hf2
      refine ⟨hf2, hpw2, ?_⟩
      · have hnotopen : ¬ (modes c).isOpen := by
          intro ho
          have hcal : c ∈ st.alive :=
            (haliveiff c).2 ⟨hc, BMode.isStarted_of_isOpen _ ho⟩
          rw [halive] at hcal
          exact absurd hcal (List.not_mem_nil c)
        exact modeInv_frame st _ c (modes c) rfl
          (lget_lset_ne _ _ c b _ hcb) rfl (Or.inr hnotopen) hmi2
  · constructor
    · intro h
      exact absurd h (insertSorted_ne_nil b st.alive)
    · intro _
      obtain ⟨htiles, hLS⟩ := hparts.1 halive
      rw [if_pos halive, pushLastIdx_append]
      exact ⟨st.partitions, _, rfl, htiles, le_of_eq hLS⟩
  -- case alive ≠ []
  · exact fun q hq => hidx q (List.mem_cons_of_mem _ hq)
  · exact fun q hq => ⟨(htime q (List.mem_cons_of_mem _ hq)).1, hL2 q hq⟩
  · exact hpw.of_cons
  · intro h
    exact absurd h hL1
  · simpa [lset_length] using hlen1
  · exact hlen2
  · exact pairwise_insertSorted b st.alive halivepw
  · intro x
    simp only [mem_insertSorted]
    constructor
    · rintro (rfl | hx)
      · exact ⟨hbN, by simp [BMode.isStarted]⟩
      · obtain ⟨hxN, hst⟩ := (haliveiff x).1 hx
        refine ⟨hxN, ?_⟩
        by_cases hxb : x = b
        · simp [hxb, BMode.isStarted]
        · simpa [hxb] using hst
    · rintro ⟨hxN, hst⟩
      by_cases hxb : x = b
      · exact Or.inl hxb
      · exact Or.inr ((haliveiff x).2 ⟨hxN, by simpa [hxb] using hst⟩)
  · intro c hc
    by_cases hcb : c = b
    · subst hcb
      have hmeq : (fun x => if x = c then BMode.active buf.gaps buf.lifespan.upper
          else modes x) c = BMode.active buf.gaps buf.lifespan.upper := by simp
      rw [hmeq]
      refine ⟨by simpa using hrest, by simpa using hnewpw, ?_⟩
      show openInvP _ (lget (-1) (lset st.secStart c (st.sections.length : Int)) c) _ _ _
      rw [lget_lset_self _ _ _ _ (hlen1 ▸ hc)]
      have hclosed : closedInvP (lget (-1) st.secStart c) ((st.sections.length : Int))
          (lget [] st.spanData c) := by
        have := hbI.2.2
        rw [hm] at this
        exact this
      refine ⟨by positivity, le_refl _, hclosed.2, Or.inl ?_⟩
      simp only [if_pos, if_neg]
      exact lt_of_le_of_lt hL3 (by simpa using hheadlt)
    · have hbI2 := hbuf c hc
      have hmeq : (fun x => if x = b then BMode.active buf.gaps buf.lifespan.upper
          else modes x) c = modes c := by simp [hcb]
      rw [hmeq]
      obtain ⟨hf2, hpw2, hmi2⟩ := hbI2
      rw [filter_cons_other b c t PointType.kLeft w rest (fun h => hcb h.symm)] at hf2
      refine ⟨hf2, hpw2, ?_⟩
      · have hlsteq : st.lastSectionTime ≠ -1 := by
          intro h
          exact absurd (hlst1 h) halive
        exact modeInv_frame st _ c (modes c) rfl
          (lget_lset_ne _ _ c b _ hcb) rfl (Or.inl (by simp [hlsteq])) hmi2
  · constructor
    · intro h
      exact absurd h (insertSorted_ne_nil b st.alive)
    · intro _
      obtain ⟨closed, last, hpart, htiles, hLS⟩ := hparts.2 halive
      rw [if_neg halive, hpart, pushLastIdx_append]
      exact ⟨closed, _, rfl, htiles, hLS⟩

/-- `modeInv` is preserved when the buffer entries are untouched and the
section count does not shrink; a changed last-section time is tolerated
exactly when a section has been flushed. -/
theorem modeInv_mono (st st2 : SweepState) (b : Nat) (m : BMode)
    (hsec : lget (-1) st2.secStart b = lget (-1) st.secStart b)
    (hspan : lget [] st2.spanData b = lget [] st.spanData b)
    (hlst : (st2.lastSectionTime = st.lastSectionTime ∧
        st2.sections.length = st.sections.length) ∨
      (st.sections.length : Int) < (st2.sections.length : Int))
    (h : modeInv st b m) : modeInv st2 b m := by
  have hS : (st.sections.length : Int) ≤ (st2.sections.length : Int) := by
    rcases hlst with ⟨_, h2⟩ | h2
    · exact le_of_eq (by rw [h2])
    · exact le_of_lt h2
  cases m with
  | notStarted buf =>
      simp only [modeInv, closedInvP] at h ⊢
      rw [hsec, hspan]
      exact ⟨h.1, spanOK_mono h.2 hS⟩
  | finished =>
      simp only [modeInv, closedInvP] at h ⊢
      rw [hsec, hspan]
      exact ⟨h.1, spanOK_mono h.2 hS⟩
  | active gs hi =>
      simp only [modeInv, openInvP] at h ⊢
      rw [hsec, hspan]
      obtain ⟨h0, h1, h2, h3⟩ := h
      refine ⟨h0, le_trans h1 hS, h2, ?_⟩
      rcases hlst with ⟨hl, hl2⟩ | hl
      · rw [hl, hl2]
        exact h3
      · exact Or.inr (lt_of_le_of_lt h1 hl)
  | inGap w gu gs hi =>
      cases w with
      | none =>
          simp only [modeInv, closedInvP] at h ⊢
          rw [hsec, hspan]
          exact ⟨h.1, spanOK_mono h.2 hS⟩
      | some win =>
          simp only [modeInv, openInvP] at h ⊢
          rw [hsec, hspan]
          obtain ⟨h0, h1, h2, h3⟩ := h
          refine ⟨h0, le_trans h1 hS, h2, ?_⟩
          rcases hlst with ⟨hl, hl2⟩ | hl
          · rw [hl, hl2]
            exact h3
          · exact Or.inr (lt_of_le_of_lt h1 hl)

theorem Inv_step_kRight (eff : Buffer → Buffer → Option Int) (buffers : List Buffer)
    (st : SweepState) (rest : List Point) (modes : Nat → BMode)
    (b : Nat) (t : Int) (w : Option Window) (hi : Int)
    (hInv : Inv buffers st (⟨b, t, .kRight, w⟩ :: rest) modes)
    (hm : modes b = .active [] hi)
    (hrem : remOf b (modes b) = ⟨b, t, .kRight, w⟩ :: remOf b .finished) :
    Inv buffers (step eff buffers st ⟨b, t, .kRight, w⟩) rest
      (fun x => if x = b then .finished else modes x) := by
  obtain ⟨hidx, htime, hpw, hlst1, hlen1, hlen2, halivepw, haliveiff, hbuf, hparts⟩ := hInv
  have hbN : b < buffers.length := hidx _ (List.mem_cons_self _ rest)
  have hbI := hbuf b hbN
  have hrest : rest.filter (fun q => q.buffer_idx = b) = ([] : List Point) := by
    have h1 := hbI.1
    rw [filter_cons_self, hrem] at h1
    injection h1
  have hba : b ∈ st.alive := (haliveiff b).2 ⟨hbN, by rw [hm]; trivial⟩
  have halivene : st.alive ≠ [] := fun h => by
    rw [h] at hba
    exact absurd hba (List.not_mem_nil b)
  have hlstne : st.lastSectionTime ≠ -1 := fun h => absurd (hlst1 h) halivene
  have hnodup : st.alive.Nodup := halivepw.imp ne_of_lt
  have hopen : openInvP st.lastSectionTime (lget (-1) st.secStart b)
      ((st.sections.length : Int)) (headTime (remOf b (modes b))) (lget [] st.spanData b) := by
    have := hbI.2.2
    rw [hm] at this
    rw [hm]
    exact this
  obtain ⟨h00, hS0S, hsOK, hdisj⟩ := hopen
  have hS0ne : lget (-1) st.secStart b ≠ -1 := by omega
  have hht : headTime (remOf b (modes b)) = t := by rw [hrem]; rfl
  have ht0 : 0 ≤ t := (htime _ (List.mem_cons_self _ rest)).1
  have hlstt : st.lastSectionTime ≤ t := (htime _ (List.mem_cons_self _ rest)).2
  have haliveiff2 : ∀ x, x ∈ st.alive.erase b ↔ x < buffers.length ∧
      ((fun x => if x = b then BMode.finished else modes x) x).isStarted := by
    intro x
    rw [List.Nodup.mem_erase_iff hnodup, haliveiff x]
    by_cases hxb : x = b
    · subst hxb
      simp [BMode.isStarted]
    · simp [hxb]
  have hbufs : ∀ c, c < buffers.length → c ≠ b →
      ∀ (st2 : SweepState),
        lget (-1) st2.secStart c = lget (-1) st.secStart c →
        lget [] st2.spanData c = lget [] st.spanData c →
        ((st2.lastSectionTime = st.lastSectionTime ∧
            st2.sections.length = st.sections.length) ∨
          (st.sections.length : Int) < (st2.sections.length : Int)) →
        bufInv st2 rest c ((fun x => if x = b then BMode.finished else modes x) c) := by
    intro c hc hcb st2 e1 e2 e3
    have hbI2 := hbuf c hc
    obtain ⟨hf2, hpw2, hmi2⟩ := hbI2
    rw [filter_cons_other b c t PointType.kRight w rest (fun h => hcb h.symm)] at hf2
    have hmeq : (fun x => if x = b then BMode.finished else modes x) c = modes c := by
      simp [hcb]
    rw [hmeq]
    exact ⟨hf2, hpw2, modeInv_mono st st2 c (modes c) e1 e2 e3 hmi2⟩
  have hbufb : ∀ (st2 : SweepState),
      lget (-1) st2.secStart b = -1 →
      lget [] st2.spanData b = lget [] st.spanData b ++
        [⟨⟨lget (-1) st.secStart b, (st2.sections.length : Int)⟩, lget ⟨0, 0⟩ st.windows b⟩] →
      lget (-1) st.secStart b < (st2.sections.length : Int) →
      bufInv st2 rest b ((fun x => if x = b then BMode.finished else modes x) b) := by
    intro st2 e1 e2 e3
    have hmeq : (fun x => if x = b then BMode.finished else modes x) b = BMode.finished := by
      simp
    rw [hmeq]
    refine ⟨by simpa [remOf] using hrest, List.Pairwise.nil, ?_⟩
    show closedInvP (lget (-1) st2.secStart b) _ (lget [] st2.spanData b)
    rw [e1, e2]
    exact ⟨rfl, spanOK_push _ hsOK e3⟩
  by_cases hflush : st.lastSectionTime < t
  · -- a section is flushed
    have hS0S2 : lget (-1) st.secStart b < ((st.sections ++ [st.actives]).length : Int) := by
      rw [List.length_append, List.length_singleton]
      push_cast
      omega
    by_cases herase : st.alive.erase b = []
    · have hstep : step eff buffers st ⟨b, t, .kRight, w⟩ =
          { st with
            actives := st.actives.erase b,
            alive := st.alive.erase b,
            lastSectionTime := t,
            sections := st.sections ++ [st.actives],
            lastSectionIdx := ((st.sections ++ [st.actives]).length : Int),
            partitions := setLastRange
              ⟨st.lastSectionIdx, ((st.sections ++ [st.actives]).length : Int)⟩ st.partitions,
            spanData := lset st.spanData b (lget [] st.spanData b ++
              [⟨⟨lget (-1) st.secStart b, ((st.sections ++ [st.actives]).length : Int)⟩,
                lget ⟨0, 0⟩ st.windows b⟩]),
            secStart := lset st.secStart b (-1) } := by
        rw [step_kRight]
        simp only [flushAt, closeSpanAt, hlstne, hflush, hS0ne, herase,
          ite_true, ite_false, if_true, if_false, ne_eq, not_false_eq_true,
          eq_self_iff_true, if_pos, if_neg]
      rw [hstep]
      refine ⟨fun q hq => hidx q (List.mem_cons_of_mem _ hq),
        fun q hq => ⟨(htime q (List.mem_cons_of_mem _ hq)).1,
          List.rel_of_pairwise_cons hpw hq⟩,
        hpw.of_cons, fun h => absurd h (show t ≠ -1 by omega), by simpa [lset_length] using hlen1,
        by simpa [lset_length] using hlen2,
        halivepw.sublist (st.alive.erase_sublist b), haliveiff2, ?_, ?_⟩
      · intro c hc
        by_cases hcb : c = b
        · subst hcb
          exact hbufb _ (lget_lset_self _ _ _ _ (hlen1 ▸ hbN))
            (lget_lset_self _ _ _ _ (hlen2 ▸ hbN)) hS0S2
        · exact hbufs c hc hcb _ (lget_lset_ne _ _ c b _ hcb) (lget_lset_ne _ _ c b _ hcb)
            (Or.inr (by rw [List.length_append, List.length_singleton]; push_cast; omega))
      · constructor
        · intro _
          obtain ⟨closed, last, hpart, htiles, hLS⟩ := hparts.2 halivene
          rw [hpart, setLastRange_append]
          constructor
          · exact tiles_append closed 0 st.lastSectionIdx _ last.buffer_idxs htiles
              (by rw [List.length_append, List.length_singleton]; push_cast; omega)
          · rfl
        · intro h
          exact absurd herase h
    · have hstep : step eff buffers st ⟨b, t, .kRight, w⟩ =
          { st with
            actives := st.actives.erase b,
            alive := st.alive.erase b,
            lastSectionTime := t,
            sections := st.sections ++ [st.actives],
            spanData := lset st.spanData b (lget [] st.spanData b ++
              [⟨⟨lget (-1) st.secStart b, ((st.sections ++ [st.actives]).length : Int)⟩,
                lget ⟨0, 0⟩ st.windows b⟩]),
            secStart := lset st.secStart b (-1) } := by
        rw [step_kRight]
        simp only [flushAt, closeSpanAt, hlstne, hflush, hS0ne, herase,
          ite_true, ite_false, if_true, if_false, ne_eq, not_false_eq_true,
          eq_self_iff_true, if_pos, if_neg]
      rw [hstep]
      refine ⟨fun q hq => hidx q (List.mem_cons_of_mem _ hq),
        fun q hq => ⟨(htime q (List.mem_cons_of_mem _ hq)).1,
          List.rel_of_pairwise_cons hpw hq⟩,
        hpw.of_cons, fun h => absurd h (show t ≠ -1 by omega), by simpa [lset_length] using hlen1,
        by simpa [lset_length] using hlen2,
        halivepw.sublist (st.alive.erase_sublist b), haliveiff2, ?_, ?_⟩
      · intro c hc
        by_cases hcb : c = b
        · subst hcb
          exact hbufb _ (lget_lset_self _ _ _ _ (hlen1 ▸ hbN))
            (lget_lset_self _ _ _ _ (hlen2 ▸ hbN)) hS0S2
        · exact hbufs c hc hcb _ (lget_lset_ne _ _ c b _ hcb) (lget_lset_ne _ _ c b _ hcb)
            (Or.inr (by rw [List.length_append, List.length_singleton]; push_cast; omega))
      · constructor
        · intro h
          exact absurd h herase
        · intro _
          obtain ⟨closed, last, hpart, htiles, hLS⟩ := hparts.2 halivene
          refine ⟨closed, last, hpart, htiles, ?_⟩
          rw [List.length_append, List.length_singleton]
          push_cast
          omega
  · -- no section is flushed: the span start is strictly below the count
    have hS0lt : lget (-1) st.secStart b < (st.sections.length : Int) := by
      rw [hht] at hdisj
      rcases hdisj with h | h
      · omega
      · exact h
    by_cases herase : st.alive.erase b = []
    · have hstep : step eff buffers st ⟨b, t, .kRight, w⟩ =
          { st with
            actives := st.actives.erase b,
            alive := st.alive.erase b,
            lastSectionIdx := (st.sections.length : Int),
            partitions := setLastRange
              ⟨st.lastSectionIdx, (st.sections.length : Int)⟩ st.partitions,
            spanData := lset st.spanData b (lget [] st.spanData b ++
              [⟨⟨lget (-1) st.secStart b, (st.sections.length : Int)⟩,
                lget ⟨0, 0⟩ st.windows b⟩]),
            secStart := lset st.secStart b (-1) } := by
        rw [step_kRight]
        simp only [flushAt, closeSpanAt, hlstne, hflush, hS0ne, herase,
          ite_true, ite_false, if_true, if_false, ne_eq, not_false_eq_true,
          eq_self_iff_true, if_pos, if_neg]
      rw [hstep]
      refine ⟨fun q hq => hidx q (List.mem_cons_of_mem _ hq),
        fun q hq => ⟨(htime q (List.mem_cons_of_mem _ hq)).1,
          (htime q (List.mem_cons_of_mem _ hq)).2⟩,
        hpw.of_cons, fun h => absurd h hlstne, by simpa [lset_length] using hlen1,
        by simpa [lset_length] using hlen2,
        halivepw.sublist (st.alive.erase_sublist b), haliveiff2, ?_, ?_⟩
      · intro c hc
        by_cases hcb : c = b
        · subst hcb
          exact hbufb _ (lget_lset_self _ _ _ _ (hlen1 ▸ hbN))
            (lget_lset_self _ _ _ _ (hlen2 ▸ hbN)) hS0lt
        · exact hbufs c hc hcb _ (lget_lset_ne _ _ c b _ hcb) (lget_lset_ne _ _ c b _ hcb)
            (Or.inl ⟨rfl, rfl⟩)
      · constructor
        · intro _
          obtain ⟨closed, last, hpart, htiles, hLS⟩ := hparts.2 halivene
          rw [hpart, setLastRange_append]
          exact ⟨tiles_append closed 0 st.lastSectionIdx _ last.buffer_idxs htiles hLS, rfl⟩
        · intro h
          exact absurd herase h
    · have hstep : step eff buffers st ⟨b, t, .kRight, w⟩ =
          { st with
            actives := st.actives.erase b,
            alive := st.alive.erase b,
            spanData := lset st.spanData b (lget [] st.spanData b ++
              [⟨⟨lget (-1) st.secStart b, (st.sections.length : Int)⟩,
                lget ⟨0, 0⟩ st.windows b⟩]),
            secStart := lset st.secStart b (-1) } := by
        rw [step_kRight]
        simp only [flushAt, closeSpanAt, hlstne, hflush, hS0ne, herase,
          ite_true, ite_false, if_true, if_false, ne_eq, not_false_eq_true,
          eq_self_iff_true, if_pos, if_neg]
      rw [hstep]
      refine ⟨fun q hq => hidx q (List.mem_cons_of_mem _ hq),
        fun q hq => ⟨(htime q (List.mem_cons_of_mem _ hq)).1,
          (htime q (List.mem_cons_of_mem _ hq)).2⟩,
        hpw.of_cons, fun h => absurd h hlstne, by simpa [lset_length] using hlen1,
        by simpa [lset_length] using hlen2,
        halivepw.sublist (st.alive.erase_sublist b), haliveiff2, ?_, ?_⟩
      · intro c hc
        by_cases hcb : c = b
        · subst hcb
          exact hbufb _ (lget_lset_self _ _ _ _ (hlen1 ▸ hbN))
            (lget_lset_self _ _ _ _ (hlen2 ▸ hbN)) hS0lt
        · exact hbufs c hc hcb _ (lget_lset_ne _ _ c b _ hcb) (lget_lset_ne _ _ c b _ hcb)
            (Or.inl ⟨rfl, rfl⟩)
      · exact ⟨fun h => absurd h herase, fun _ => hparts.2 halivene⟩

theorem aliveiff_update (N : Nat) (alive : List Nat) (modes : Nat → BMode) (b : Nat)
    (m2 : BMode) (h : ∀ x, x ∈ alive ↔ x < N ∧ (modes x).isStarted)
    (hb : (modes b).isStarted ↔ m2.isStarted) :
    ∀ x, x ∈ alive ↔ x < N ∧ ((fun x => if x = b then m2 else modes x) x).isStarted := by
  intro x
  by_cases hxb : x = b
  · subst hxb
    have he : ((fun y => if y = x then m2 else modes y) x) = m2 := by simp
    rw [he, h x, hb]
  · have he : ((fun y => if y = b then m2 else modes y) x) = modes x := by simp [hxb]
    rw [he]
    exact h x

theorem Inv_step_emptyRightGap (eff : Buffer → Buffer → Option Int) (buffers : List Buffer)
    (st : SweepState) (rest : List Point) (modes : Nat → BMode)
    (b : Nat) (t : Int) (gu : Int) (gs : List Gap) (hi : Int) (g : Gap)
    (hInv : Inv buffers st (⟨b, t, .kRightGap, none⟩ :: rest) modes)
    (hm : modes b = .active (g :: gs) hi)
    (hrem : remOf b (modes b) = ⟨b, t, .kRightGap, none⟩ ::
      remOf b (.inGap none gu gs hi)) :
    Inv buffers (step eff buffers st ⟨b, t, .kRightGap, none⟩) rest
      (fun x => if x = b then .inGap none gu gs hi else modes x) := by
  obtain ⟨hidx, htime, hpw, hlst1, hlen1, hlen2, halivepw, haliveiff, hbuf, hparts⟩ := hInv
  have hbN : b < buffers.length := hidx _ (List.mem_cons_self _ rest)
  have hbI := hbuf b hbN
  have hba : b ∈ st.alive := (haliveiff b).2 ⟨hbN, by rw [hm]; trivial⟩
  have halivene : st.alive ≠ [] := fun h => by
    rw [h] at hba
    exact absurd hba (List.not_mem_nil b)
  have hlstne : st.lastSectionTime ≠ -1 := fun h => absurd (hlst1 h) halivene
  have hrest : rest.filter (fun q => q.buffer_idx = b) = remOf b (.inGap none gu gs hi) := by
    have h1 := hbI.1
    rw [filter_cons_self, hrem] at h1
    injection h1
  have hpwb := hbI.2.1
  have hnewpw : (remOf b (.inGap none gu gs hi)).Pairwise
      (fun x y => x.time_value < y.time_value) := by
    rw [hrem] at hpwb
    exact hpwb.of_cons
  have hopen : openInvP st.lastSectionTime (lget (-1) st.secStart b)
      ((st.sections.length : Int)) (headTime (remOf b (modes b))) (lget [] st.spanData b) := by
    have h2 := hbI.2.2
    rw [hm] at h2
    rw [hm]
    exact h2
  obtain ⟨h00, hS0S, hsOK, hdisj⟩ := hopen
  have hS0ne : lget (-1) st.secStart b ≠ -1 := by omega
  have hht : headTime (remOf b (modes b)) = t := by rw [hrem]; rfl
  have ht0 : 0 ≤ t := (htime _ (List.mem_cons_self _ rest)).1
  have hlstt : st.lastSectionTime ≤ t := (htime _ (List.mem_cons_self _ rest)).2
  have haliveiff2 := aliveiff_update buffers.length st.alive modes b
    (.inGap none gu gs hi) haliveiff (by rw [hm]; exact Iff.rfl)
  have hbufs : ∀ c, c < buffers.length → c ≠ b →
      ∀ (st2 : SweepState),
        lget (-1) st2.secStart c = lget (-1) st.secStart c →
        lget [] st2.spanData c = lget [] st.spanData c →
        ((st2.lastSectionTime = st.lastSectionTime ∧
            st2.sections.length = st.sections.length) ∨
          (st.sections.length : Int) < (st2.sections.length : Int)) →
        bufInv st2 rest c ((fun x => if x = b then BMode.inGap none gu gs hi else modes x) c) := by
    intro c hc hcb st2 e1 e2 e3
    obtain ⟨hf2, hpw2, hmi2⟩ := hbuf c hc
    rw [filter_cons_other b c t PointType.kRightGap none rest (fun h => hcb h.symm)] at hf2
    have hmeq : (fun x => if x = b then BMode.inGap none gu gs hi else modes x) c = modes c := by
      simp [hcb]
    rw [hmeq]
    exact ⟨hf2, hpw2, modeInv_mono st st2 c (modes c) e1 e2 e3 hmi2⟩
  have hbufb : ∀ (st2 : SweepState),
      lget (-1) st2.secStart b = -1 →
      lget [] st2.spanData b = lget [] st.spanData b ++
        [⟨⟨lget (-1) st.secStart b, (st2.sections.length : Int)⟩, lget ⟨0, 0⟩ st.windows b⟩] →
      lget (-1) st.secStart b < (st2.sections.length : Int) →
      bufInv st2 rest b ((fun x => if x = b then BMode.inGap none gu gs hi else modes x) b) := by
    intro st2 e1 e2 e3
    have hmeq : (fun x => if x = b then BMode.inGap none gu gs hi else modes x) b =
        BMode.inGap none gu gs hi := by simp
    rw [hmeq]
    refine ⟨hrest, hnewpw, ?_⟩
    show closedInvP (lget (-1) st2.secStart b) _ (lget [] st2.spanData b)
    rw [e1, e2]
    exact ⟨rfl, spanOK_push _ hsOK e3⟩
  by_cases hflush : st.lastSectionTime < t
  · have hS0S2 : lget (-1) st.secStart b < ((st.sections ++ [st.actives]).length : Int) := by
      rw [List.length_append, List.length_singleton]
      push_cast
      omega
    have hstep : step eff buffers st ⟨b, t, .kRightGap, none⟩ =
        { st with
          actives := st.actives.erase b,
          lastSectionTime := t,
          sections := st.sections ++ [st.actives],
          spanData := lset st.spanData b (lget [] st.spanData b ++
            [⟨⟨lget (-1) st.secStart b, ((st.sections ++ [st.actives]).length : Int)⟩,
              lget ⟨0, 0⟩ st.windows b⟩]),
          secStart := lset st.secStart b (-1) } := by
      rw [step_emptyRightGap]
      simp only [flushAt, closeSpanAt, hlstne, hflush, hS0ne, halivene,
        ite_true, ite_false, if_true, if_false, ne_eq, not_false_eq_true,
        eq_self_iff_true, if_pos, if_neg]
    rw [hstep]
    refine ⟨fun q hq => hidx q (List.mem_cons_of_mem _ hq),
      fun q hq => ⟨(htime q (List.mem_cons_of_mem _ hq)).1,
        List.rel_of_pairwise_cons hpw hq⟩,
      hpw.of_cons, fun h => absurd h (show t ≠ -1 by omega),
      by simpa [lset_length] using hlen1, by simpa [lset_length] using hlen2,
      halivepw, haliveiff2, ?_, ?_⟩
    · intro c hc
      by_cases hcb : c = b
      · subst hcb
        exact hbufb _ (lget_lset_self _ _ _ _ (hlen1 ▸ hbN))
          (lget_lset_self _ _ _ _ (hlen2 ▸ hbN)) hS0S2
      · exact hbufs c hc hcb _ (lget_lset_ne _ _ c b _ hcb) (lget_lset_ne _ _ c b _ hcb)
          (Or.inr (by rw [List.length_append, List.length_singleton]; push_cast; omega))
    · refine ⟨fun h => absurd h halivene, fun _ => ?_⟩
      obtain ⟨closed, last, hpart, htiles, hLS⟩ := hparts.2 halivene
      refine ⟨closed, last, hpart, htiles, ?_⟩
      rw [List.length_append, List.length_singleton]
      push_cast
      omega
  · have hS0lt : lget (-1) st.secStart b < (st.sections.length : Int) := by
      rw [hht] at hdisj
      rcases hdisj with h | h
      · omega
      · exact h
    have hstep : step eff buffers st ⟨b, t, .kRightGap, none⟩ =
        { st with
          actives := st.actives.erase b,
          spanData := lset st.spanData b (lget [] st.spanData b ++
            [⟨⟨lget (-1) st.secStart b, (st.sections.length : Int)⟩,
              lget ⟨0, 0⟩ st.windows b⟩]),
          secStart := lset st.secStart b (-1) } := by
      rw [step_emptyRightGap]
      simp only [flushAt, closeSpanAt, hlstne, hflush, hS0ne, halivene,
        ite_true, ite_false, if_true, if_false, ne_eq, not_false_eq_true,
        eq_self_iff_true, if_pos, if_neg]
    rw [hstep]
    refine ⟨fun q hq => hidx q (List.mem_cons_of_mem _ hq),
      fun q hq => ⟨(htime q (List.mem_cons_of_mem _ hq)).1,
        (htime q (List.mem_cons_of_mem _ hq)).2⟩,
      hpw.of_cons, fun h => absurd h hlstne,
      by simpa [lset_length] using hlen1, by simpa [lset_length] using hlen2,
      halivepw, haliveiff2, ?_, ?_⟩
    · intro c hc
      by_cases hcb : c = b
      · subst hcb
        exact hbufb _ (lget_lset_self _ _ _ _ (hlen1 ▸ hbN))
          (lget_lset_self _ _ _ _ (hlen2 ▸ hbN)) hS0lt
      · exact hbufs c hc hcb _ (lget_lset_ne _ _ c b _ hcb) (lget_lset_ne _ _ c b _ hcb)
          (Or.inl ⟨rfl, rfl⟩)
    · exact ⟨fun h => absurd h halivene, fun _ => hparts.2 halivene⟩

theorem Inv_step_windowedRightGap (eff : Buffer → Buffer → Option Int) (buffers : List Buffer)
    (st : SweepState) (rest : List Point) (modes : Nat → BMode)
    (b : Nat) (t : Int) (win : Window) (gu : Int) (gs : List Gap) (hi : Int) (g : Gap)
    (hInv : Inv buffers st (⟨b, t, .kRightGap, some win⟩ :: rest) modes)
    (hm : modes b = .active (g :: gs) hi)
    (hrem : remOf b (modes b) = ⟨b, t, .kRightGap, some win⟩ ::
      remOf b (.inGap (some win) gu gs hi)) :
    Inv buffers (step eff buffers st ⟨b, t, .kRightGap, some win⟩) rest
      (fun x => if x = b then .inGap (some win) gu gs hi else modes x) := by
  obtain ⟨hidx, htime, hpw, hlst1, hlen1, hlen2, halivepw, haliveiff, hbuf, hparts⟩ := hInv
  have hbN : b < buffers.length := hidx _ (List.mem_cons_self _ rest)
  have hbI := hbuf b hbN
  have hba : b ∈ st.alive := (haliveiff b).2 ⟨hbN, by rw [hm]; trivial⟩
  have halivene : st.alive ≠ [] := fun h => by
    rw [h] at hba
    exact absurd hba (List.not_mem_nil b)
  have hlstne : st.lastSectionTime ≠ -1 := fun h => absurd (hlst1 h) halivene
  have hrest : rest.filter (fun q => q.buffer_idx = b) =
      remOf b (.inGap (some win) gu gs hi) := by
    have h1 := hbI.1
    rw [filter_cons_self, hrem] at h1
    injection h1
  have hpwb := hbI.2.1
  have hnewpw : (remOf b (.inGap (some win) gu gs hi)).Pairwise
      (fun x y => x.time_value < y.time_value) := by
    rw [hrem] at hpwb
    exact hpwb.of_cons
  have hheadlt : t < headTime (remOf b (.inGap (some win) gu gs hi)) := by
    rw [hrem] at hpwb
    exact headTime_lt_of_pairwise _ _ hpwb (by simp [remOf])
  have hopen : openInvP st.lastSectionTime (lget (-1) st.secStart b)
      ((st.sections.length : Int)) (headTime (remOf b (modes b))) (lget [] st.spanData b) := by
    have h2 := hbI.2.2
    rw [hm] at h2
    rw [hm]
    exact h2
  obtain ⟨h00, hS0S, hsOK, hdisj⟩ := hopen
  have hS0ne : lget (-1) st.secStart b ≠ -1 := by omega
  have hht : headTime (remOf b (modes b)) = t := by rw [hrem]; rfl
  have ht0 : 0 ≤ t := (htime _ (List.mem_cons_self _ rest)).1
  have hlstt : st.lastSectionTime ≤ t := (htime _ (List.mem_cons_self _ rest)).2
  have haliveiff2 := aliveiff_update buffers.length st.alive modes b
    (.inGap (some win) gu gs hi) haliveiff (by rw [hm]; exact Iff.rfl)
  have hbufs : ∀ c, c < buffers.length → c ≠ b →
      ∀ (st2 : SweepState),
        lget (-1) st2.secStart c = lget (-1) st.secStart c →
        lget [] st2.spanData c = lget [] st.spanData c →
        ((st2.lastSectionTime = st.lastSectionTime ∧
            st2.sections.length = st.sections.length) ∨
          (st.sections.length : Int) < (st2.sections.length : Int)) →
        bufInv st2 rest c
          ((fun x => if x = b then BMode.inGap (some win) gu gs hi else modes x) c) := by
    intro c hc hcb st2 e1 e2 e3
    obtain ⟨hf2, hpw2, hmi2⟩ := hbuf c hc
    rw [filter_cons_other b c t PointType.kRightGap (some win) rest
      (fun h => hcb h.symm)] at hf2
    have hmeq : (fun x => if x = b then BMode.inGap (some win) gu gs hi else modes x) c =
        modes c := by simp [hcb]
    rw [hmeq]
    exact ⟨hf2, hpw2, modeInv_mono st st2 c (modes c) e1 e2 e3 hmi2⟩
  have hbufb : ∀ (st2 : SweepState) (wv : Window),
      lget (-1) st2.secStart b = (st2.sections.length : Int) →
      lget [] st2.spanData b = lget [] st.spanData b ++
        [⟨⟨lget (-1) st.secStart b, (st2.sections.length : Int)⟩, wv⟩] →
      lget (-1) st.secStart b < (st2.sections.length : Int) →
      st2.lastSectionTime ≤ t →
      bufInv st2 rest b
        ((fun x => if x = b then BMode.inGap (some win) gu gs hi else modes x) b) := by
    intro st2 wv e1 e2 e3 e4
    have hmeq : (fun x => if x = b then BMode.inGap (some win) gu gs hi else modes x) b =
        BMode.inGap (some win) gu gs hi := by simp
    rw [hmeq]
    refine ⟨hrest, hnewpw, ?_⟩
    show openInvP st2.lastSectionTime (lget (-1) st2.secStart b) _ _ (lget [] st2.spanData b)
    rw [e1, e2]
    refine ⟨by positivity, le_refl _, spanOK_push _ hsOK e3, Or.inl ?_⟩
    exact lt_of_le_of_lt e4 hheadlt
  by_cases hflush : st.lastSectionTime < t
  · have hS0S2 : lget (-1) st.secStart b < ((st.sections ++ [st.actives]).length : Int) := by
      rw [List.length_append, List.length_singleton]
      push_cast
      omega
    have hstep : step eff buffers st ⟨b, t, .kRightGap, some win⟩ =
        { st with
          windows := lset st.windows b ⟨0, (lget default buffers b).size⟩,
          lastSectionTime := t,
          sections := st.sections ++ [st.actives],
          spanData := lset st.spanData b (lget [] st.spanData b ++
            [⟨⟨lget (-1) st.secStart b, ((st.sections ++ [st.actives]).length : Int)⟩,
              lget ⟨0, 0⟩ (lset st.windows b ⟨0, (lget default buffers b).size⟩) b⟩]),
          secStart := lset (lset st.secStart b (-1)) b
            (((st.sections ++ [st.actives]).length : Int)) } := by
      rw [step_windowedRightGap]
      simp only [flushAt, closeSpanAt, hlstne, hflush, hS0ne, halivene,
        ite_true, ite_false, if_true, if_false, ne_eq, not_false_eq_true,
        eq_self_iff_true, if_pos, if_neg]
    rw [hstep]
    refine ⟨fun q hq => hidx q (List.mem_cons_of_mem _ hq),
      fun q hq => ⟨(htime q (List.mem_cons_of_mem _ hq)).1,
        List.rel_of_pairwise_cons hpw hq⟩,
      hpw.of_cons, fun h => absurd h (show t ≠ -1 by omega),
      by simpa [lset_length] using hlen1, by simpa [lset_length] using hlen2,
      halivepw, haliveiff2, ?_, ?_⟩
    · intro c hc
      by_cases hcb : c = b
      · subst hcb
        exact hbufb _ _ (lget_lset_self _ _ _ _ (by rw [lset_length]; exact hlen1 ▸ hbN))
          (lget_lset_self _ _ _ _ (hlen2 ▸ hbN)) hS0S2 (le_refl t)
      · exact hbufs c hc hcb _
          (by rw [lget_lset_ne _ _ c b _ hcb, lget_lset_ne _ _ c b _ hcb])
          (lget_lset_ne _ _ c b _ hcb)
          (Or.inr (by rw [List.length_append, List.length_singleton]; push_cast; omega))
    · refine ⟨fun h => absurd h halivene, fun _ => ?_⟩
      obtain ⟨closed, last, hpart, htiles, hLS⟩ := hparts.2 halivene
      refine ⟨closed, last, hpart, htiles, ?_⟩
      rw [List.length_append, List.length_singleton]
      push_cast
      omega
  · have hS0lt : lget (-1) st.secStart b < (st.sections.length : Int) := by
      rw [hht] at hdisj
      rcases hdisj with h | h
      · omega
      · exact h
    have hstep : step eff buffers st ⟨b, t, .kRightGap, some win⟩ =
        { st with
          windows := lset st.windows b ⟨0, (lget default buffers b).size⟩,
          spanData := lset st.spanData b (lget [] st.spanData b ++
            [⟨⟨lget (-1) st.secStart b, (st.sections.length : Int)⟩,
              lget ⟨0, 0⟩ (lset st.windows b ⟨0, (lget default buffers b).size⟩) b⟩]),
          secStart := lset (lset st.secStart b (-1)) b ((st.sections.length : Int)) } := by
      rw [step_windowedRightGap]
      simp only [flushAt, closeSpanAt, hlstne, hflush, hS0ne, halivene,
        ite_true, ite_false, if_true, if_false, ne_eq, not_false_eq_true,
        eq_self_iff_true, if_pos, if_neg]
    rw [hstep]
    refine ⟨fun q hq => hidx q (List.mem_cons_of_mem _ hq),
      fun q hq => ⟨(htime q (List.mem_cons_of_mem _ hq)).1,
        (htime q (List.mem_cons_of_mem _ hq)).2⟩,
      hpw.of_cons, fun h => absurd h hlstne,
      by simpa [lset_length] using hlen1, by simpa [lset_length] using hlen2,
      halivepw, haliveiff2, ?_, ?_⟩
    · intro c hc
      by_cases hcb : c = b
      · subst hcb
        exact hbufb _ _ (lget_lset_self _ _ _ _ (by rw [lset_length]; exact hlen1 ▸ hbN))
          (lget_lset_self _ _ _ _ (hlen2 ▸ hbN)) hS0lt hlstt
      · exact hbufs c hc hcb _
          (by rw [lget_lset_ne _ _ c b _ hcb, lget_lset_ne _ _ c b _ hcb])
          (lget_lset_ne _ _ c b _ hcb)
          (Or.inl ⟨rfl, rfl⟩)
    · exact ⟨fun h => absurd h halivene, fun _ => hparts.2 halivene⟩

theorem Inv_step_emptyLeftGap (eff : Buffer → Buffer → Option Int) (buffers : List Buffer)
    (st : SweepState) (rest : List Point) (modes : Nat → BMode)
    (b : Nat) (t : Int) (gu : Int) (gs : List Gap) (hi : Int)
    (hInv : Inv buffers st (⟨b, t, .kLeftGap, none⟩ :: rest) modes)
    (hm : modes b = .inGap none gu gs hi)
    (hrem : remOf b (modes b) = ⟨b, t, .kLeftGap, none⟩ :: remOf b (.active gs hi)) :
    Inv buffers (step eff buffers st ⟨b, t, .kLeftGap, none⟩) rest
      (fun x => if x = b then .active gs hi else modes x) := by
  obtain ⟨hidx, htime, hpw, hlst1, hlen1, hlen2, halivepw, haliveiff, hbuf, hparts⟩ := hInv
  have hbN : b < buffers.length := hidx _ (List.mem_cons_self _ rest)
  have hbI := hbuf b hbN
  have hba : b ∈ st.alive := (haliveiff b).2 ⟨hbN, by rw [hm]; trivial⟩
  have halivene : st.alive ≠ [] := fun h => by
    rw [h] at hba
    exact absurd hba (List.not_mem_nil b)
  have hlstne : st.lastSectionTime ≠ -1 := fun h => absurd (hlst1 h) halivene
  have hrest : rest.filter (fun q => q.buffer_idx = b) = remOf b (.active gs hi) := by
    have h1 := hbI.1
    rw [filter_cons_self, hrem] at h1
    injection h1
  have hpwb := hbI.2.1
  have hnewpw : (remOf b (.active gs hi)).Pairwise
      (fun x y => x.time_value < y.time_value) := by
    rw [hrem] at hpwb
    exact hpwb.of_cons
  have hheadlt : t < headTime (remOf b (.active gs hi)) := by
    rw [hrem] at hpwb
    exact headTime_lt_of_pairwise _ _ hpwb (by simp [remOf])
  have hclosed : closedInvP (lget (-1) st.secStart b) ((st.sections.length : Int))
      (lget [] st.spanData b) := by
    have h2 := hbI.2.2
    rw [hm] at h2
    exact h2
  have hlstt : st.lastSectionTime ≤ t := (htime _ (List.mem_cons_self _ rest)).2
  have haliveiff2 := aliveiff_update buffers.length st.alive modes b
    (.active gs hi) haliveiff (by rw [hm]; exact Iff.rfl)
  have hstep : step eff buffers st ⟨b, t, .kLeftGap, none⟩ =
      { st with
        actives := insertSorted b st.actives,
        secStart := lset st.secStart b ((st.sections.length : Int)),
        overlapData := recordOverlaps eff buffers b st.actives st.overlapData } := by
    rw [step_emptyLeftGap]
    simp only [hlstne, halivene, ite_true, ite_false, if_true, if_false,
      eq_self_iff_true, if_pos, if_neg]
  rw [hstep]
  refine ⟨fun q hq => hidx q (List.mem_cons_of_mem _ hq),
    fun q hq => ⟨(htime q (List.mem_cons_of_mem _ hq)).1,
      (htime q (List.mem_cons_of_mem _ hq)).2⟩,
    hpw.of_cons, fun h => absurd h hlstne,
    by simpa [lset_length] using hlen1, hlen2, halivepw, haliveiff2, ?_, ?_⟩
  · intro c hc
    by_cases hcb : c = b
    · subst hcb
      have hmeq : (fun x => if x = c then BMode.active gs hi else modes x) c =
          BMode.active gs hi := by simp
      rw [hmeq]
      refine ⟨hrest, hnewpw, ?_⟩
      show openInvP _ (lget (-1) (lset st.secStart c ((st.sections.length : Int))) c) _ _ _
      rw [lget_lset_self _ _ _ _ (hlen1 ▸ hc)]
      refine ⟨by positivity, le_refl _, hclosed.2, Or.inl ?_⟩
      exact lt_of_le_of_lt hlstt hheadlt
    · obtain ⟨hf2, hpw2, hmi2⟩ := hbuf c hc
      rw [filter_cons_other b c t PointType.kLeftGap none rest (fun h => hcb h.symm)] at hf2
      have hmeq : (fun x => if x = b then BMode.active gs hi else modes x) c = modes c := by
        simp [hcb]
      rw [hmeq]
      exact ⟨hf2, hpw2, modeInv_frame st _ c (modes c) rfl
        (lget_lset_ne _ _ c b _ hcb) rfl (Or.inl rfl) hmi2⟩
  · exact hparts

theorem Inv_step_windowedLeftGap (eff : Buffer → Buffer → Option Int) (buffers : List Buffer)
    (st : SweepState) (rest : List Point) (modes : Nat → BMode)
    (b : Nat) (t : Int) (win : Window) (gu : Int) (gs : List Gap) (hi : Int)
    (hInv : Inv buffers st (⟨b, t, .kLeftGap, some win⟩ :: rest) modes)
    (hm : modes b = .inGap (some win) gu gs hi)
    (hrem : remOf b (modes b) = ⟨b, t, .kLeftGap, some win⟩ :: remOf b (.active gs hi)) :
    Inv buffers (step eff buffers st ⟨b, t, .kLeftGap, some win⟩) rest
      (fun x => if x = b then .active gs hi else modes x) := by
  obtain ⟨hidx, htime, hpw, hlst1, hlen1, hlen2, halivepw, haliveiff, hbuf, hparts⟩ := hInv
  have hbN : b < buffers.length := hidx _ (List.mem_cons_self _ rest)
  have hbI := hbuf b hbN
  have hba : b ∈ st.alive := (haliveiff b).2 ⟨hbN, by rw [hm]; trivial⟩
  have halivene : st.alive ≠ [] := fun h => by
    rw [h] at hba
    exact absurd hba (List.not_mem_nil b)
  have hlstne : st.lastSectionTime ≠ -1 := fun h => absurd (hlst1 h) halivene
  have hrest : rest.filter (fun q => q.buffer_idx = b) = remOf b (.active gs hi) := by
    have h1 := hbI.1
    rw [filter_cons_self, hrem] at h1
    injection h1
  have hpwb := hbI.2.1
  have hnewpw : (remOf b (.active gs hi)).Pairwise
      (fun x y => x.time_value < y.time_value) := by
    rw [hrem] at hpwb
    exact hpwb.of_cons
  have hheadlt : t < headTime (remOf b (.active gs hi)) := by
    rw [hrem] at hpwb
    exact headTime_lt_of_pairwise _ _ hpwb (by simp [remOf])
  have hopen : openInvP st.lastSectionTime (lget (-1) st.secStart b)
      ((st.sections.length : Int)) (headTime (remOf b (modes b))) (lget [] st.spanData b) := by
    have h2 := hbI.2.2
    rw [hm] at h2
    rw [hm]
    exact h2
  obtain ⟨h00, hS0S, hsOK, hdisj⟩ := hopen
  have hS0ne : lget (-1) st.secStart b ≠ -1 := by omega
  have hht : headTime (remOf b (modes b)) = t := by rw [hrem]; rfl
  have ht0 : 0 ≤ t := (htime _ (List.mem_cons_self _ rest)).1
  have hlstt : st.lastSectionTime ≤ t := (htime _ (List.mem_cons_self _ rest)).2
  have haliveiff2 := aliveiff_update buffers.length st.alive modes b
    (.active gs hi) haliveiff (by rw [hm]; exact Iff.rfl)
  have hbufs : ∀ c, c < buffers.length → c ≠ b →
      ∀ (st2 : SweepState),
        lget (-1) st2.secStart c = lget (-1) st.secStart c →
        lget [] st2.spanData c = lget [] st.spanData c →
        ((st2.lastSectionTime = st.lastSectionTime ∧
            st2.sections.length = st.sections.length) ∨
          (st.sections.length : Int) < (st2.sections.length : Int)) →
        bufInv st2 rest c ((fun x => if x = b then BMode.active gs hi else modes x) c) := by
    intro c hc hcb st2 e1 e2 e3
    obtain ⟨hf2, hpw2, hmi2⟩ := hbuf c hc
    rw [filter_cons_other b c t PointType.kLeftGap (some win) rest
      (fun h => hcb h.symm)] at hf2
    have hmeq : (fun x => if x = b then BMode.active gs hi else modes x) c = modes c := by
      simp [hcb]
    rw [hmeq]
    exact ⟨hf2, hpw2, modeInv_mono st st2 c (modes c) e1 e2 e3 hmi2⟩
  have hbufb : ∀ (st2 : SweepState) (wv : Window),
      lget (-1) st2.secStart b = (st2.sections.length : Int) →
      lget [] st2.spanData b = lget [] st.spanData b ++
        [⟨⟨lget (-1) st.secStart b, (st2.sections.length : Int)⟩, wv⟩] →
      lget (-1) st.secStart b < (st2.sections.length : Int) →
      st2.lastSectionTime ≤ t →
      bufInv st2 rest b ((fun x => if x = b then BMode.active gs hi else modes x) b) := by
    intro st2 wv e1 e2 e3 e4
    have hmeq : (fun x => if x = b then BMode.active gs hi else modes x) b =
        BMode.active gs hi := by simp
    rw [hmeq]
    refine ⟨hrest, hnewpw, ?_⟩
    show openInvP st2.lastSectionTime (lget (-1) st2.secStart b) _ _ (lget [] st2.spanData b)
    rw [e1, e2]
    refine ⟨by positivity, le_refl _, spanOK_push _ hsOK e3, Or.inl ?_⟩
    exact lt_of_le_of_lt e4 hheadlt
  by_cases hflush : st.lastSectionTime < t
  · have hS0S2 : lget (-1) st.secStart b < ((st.sections ++ [st.actives]).length : Int) := by
      rw [List.length_append, List.length_singleton]
      push_cast
      omega
    have hstep : step eff buffers st ⟨b, t, .kLeftGap, some win⟩ =
        { st with
          lastSectionTime := t,
          sections := st.sections ++ [st.actives],
          spanData := lset st.spanData b (lget [] st.spanData b ++
            [⟨⟨lget (-1) st.secStart b, ((st.sections ++ [st.actives]).length : Int)⟩,
              lget ⟨0, 0⟩ st.windows b⟩]),
          windows := lset st.windows b win,
          secStart := lset (lset st.secStart b (-1)) b
            (((st.sections ++ [st.actives]).length : Int)) } := by
      rw [step_windowedLeftGap]
      simp only [flushAt, closeSpanAt, hlstne, hflush, hS0ne, halivene,
        ite_true, ite_false, if_true, if_false, ne_eq, not_false_eq_true,
        eq_self_iff_true, if_pos, if_neg]
    rw [hstep]
    refine ⟨fun q hq => hidx q (List.mem_cons_of_mem _ hq),
      fun q hq => ⟨(htime q (List.mem_cons_of_mem _ hq)).1,
        List.rel_of_pairwise_cons hpw hq⟩,
      hpw.of_cons, fun h => absurd h (show t ≠ -1 by omega),
      by simpa [lset_length] using hlen1, by simpa [lset_length] using hlen2,
      halivepw, haliveiff2, ?_, ?_⟩
    · intro c hc
      by_cases hcb : c = b
      · subst hcb
        exact hbufb _ _ (lget_lset_self _ _ _ _ (by rw [lset_length]; exact hlen1 ▸ hbN))
          (lget_lset_self _ _ _ _ (hlen2 ▸ hbN)) hS0S2 (le_refl t)
      · exact hbufs c hc hcb _
          (by rw [lget_lset_ne _ _ c b _ hcb, lget_lset_ne _ _ c b _ hcb])
          (lget_lset_ne _ _ c b _ hcb)
          (Or.inr (by rw [List.length_append, List.length_singleton]; push_cast; omega))
    · refine ⟨fun h => absurd h halivene, fun _ => ?_⟩
      obtain ⟨closed, last, hpart, htiles, hLS⟩ := hparts.2 halivene
      refine ⟨closed, last, hpart, htiles, ?_⟩
      rw [List.length_append, List.length_singleton]
      push_cast
      omega
  · have hS0lt : lget (-1) st.secStart b < (st.sections.length : Int) := by
      rw [hht] at hdisj
      rcases hdisj with h | h
      · omega
      · exact h
    have hstep : step eff buffers st ⟨b, t, .kLeftGap, some win⟩ =
        { st with
          spanData := lset st.spanData b (lget [] st.spanData b ++
            [⟨⟨lget (-1) st.secStart b, (st.sections.length : Int)⟩,
              lget ⟨0, 0⟩ st.windows b⟩]),
          windows := lset st.windows b win,
          secStart := lset (lset st.secStart b (-1)) b ((st.sections.length : Int)) } := by
      rw [step_windowedLeftGap]
      simp only [flushAt, closeSpanAt, hlstne, hflush, hS0ne, halivene,
        ite_true, ite_false, if_true, if_false, ne_eq, not_false_eq_true,
        eq_self_iff_true, if_pos, if_neg]
    rw [hstep]
    refine ⟨fun q hq => hidx q (List.mem_cons_of_mem _ hq),
      fun q hq => ⟨(htime q (List.mem_cons_of_mem _ hq)).1,
        (htime q (List.mem_cons_of_mem _ hq)).2⟩,
      hpw.of_cons, fun h => absurd h hlstne,
      by simpa [lset_length] using hlen1, by simpa [lset_length] using hlen2,
      halivepw, haliveiff2, ?_, ?_⟩
    · intro c hc
      by_cases hcb : c = b
      · subst hcb
        exact hbufb _ _ (lget_lset_self _ _ _ _ (by rw [lset_length]; exact hlen1 ▸ hbN))
          (lget_lset_self _ _ _ _ (hlen2 ▸ hbN)) hS0lt hlstt
      · exact hbufs c hc hcb _
          (by rw [lget_lset_ne _ _ c b _ hcb, lget_lset_ne _ _ c b _ hcb])
          (lget_lset_ne _ _ c b _ hcb)
          (Or.inl ⟨rfl, rfl⟩)
    · exact ⟨fun h => absurd h halivene, fun _ => hparts.2 halivene⟩

/-! Dispatcher: one step preserves the invariant for some updated phases. -/

theorem Inv_step (eff : Buffer → Buffer → Option Int) (buffers : List Buffer)
    (st : SweepState) (p : Point) (rest : List Point) (modes : Nat → BMode)
    (hInv : Inv buffers st (p :: rest) modes) :
    ∃ modes2, Inv buffers (step eff buffers st p) rest modes2 := by
  obtain ⟨b, t, ty, w⟩ := p
  have hbN : b < buffers.length := hInv.1 _ (List.mem_cons_self _ _)
  have hbuf := hInv.2.2.2.2.2.2.2.2.1
  have hfil : remOf b (modes b) =
      ⟨b, t, ty, w⟩ :: rest.filter (fun q => q.buffer_idx = b) := by
    have h1 := (hbuf b hbN).1
    rw [filter_cons_self] at h1
    exact h1.symm
  cases hmode : modes b with
  | finished =>
      rw [hmode] at hfil
      exact absurd hfil (by simp [remOf])
  | notStarted buf =>
      rw [hmode] at hfil
      simp only [remOf, bufferPts] at hfil
      injection hfil with h1 h2
      injection h1 with hb1 ht1 hty1 hw1
      subst ht1
      subst hty1
      subst hw1
      exact ⟨_, Inv_step_kLeft eff buffers st rest modes b _ _ buf hInv hmode
        (by rw [hmode]; rfl)⟩
  | active gs hi =>
      cases gs with
      | nil =>
          rw [hmode] at hfil
          simp only [remOf, gapPts, List.nil_append] at hfil
          injection hfil with h1 h2
          injection h1 with hb1 ht1 hty1 hw1
          subst ht1
          subst hty1
          subst hw1
          exact ⟨_, Inv_step_kRight eff buffers st rest modes b _ _ hi hInv hmode
            (by rw [hmode]; rfl)⟩
      | cons g gs2 =>
          rw [hmode] at hfil
          simp only [remOf, gapPts, List.cons_append] at hfil
          injection hfil with h1 h2
          injection h1 with hb1 ht1 hty1 hw1
          subst ht1
          subst hty1
          cases hwin : g.window with
          | none =>
              rw [hwin] at hw1
              subst hw1
              refine ⟨_, Inv_step_emptyRightGap eff buffers st rest modes b _
                g.lifespan.upper gs2 hi g hInv hmode ?_⟩
              rw [hmode]
              simp [remOf, gapPts, hwin]
          | some win =>
              rw [hwin] at hw1
              subst hw1
              refine ⟨_, Inv_step_windowedRightGap eff buffers st rest modes b _ win
                g.lifespan.upper gs2 hi g hInv hmode ?_⟩
              rw [hmode]
              simp [remOf, gapPts, hwin]
  | inGap w2 gu gs hi =>
      rw [hmode] at hfil
      simp only [remOf] at hfil
      injection hfil with h1 h2
      injection h1 with hb1 ht1 hty1 hw1
      subst ht1
      subst hty1
      cases w2 with
      | none =>
          subst hw1
          exact ⟨_, Inv_step_emptyLeftGap eff buffers st rest modes b _ gu gs hi hInv hmode
            (by rw [hmode]; rfl)⟩
      | some win =>
          subst hw1
          exact ⟨_, Inv_step_windowedLeftGap eff buffers st rest modes b _ win gu gs hi
            hInv hmode (by rw [hmode]; rfl)⟩

theorem Inv_foldl (eff : Buffer → Buffer → Option Int) (buffers : List Buffer) :
    ∀ (rest : List Point) (st : SweepState) (modes : Nat → BMode),
      Inv buffers st rest modes →
      ∃ modes2, Inv buffers (rest.foldl (step eff buffers) st) [] modes2
  | [], st, modes, h => ⟨modes, h⟩
  | p :: rest, st, modes, h => by
      obtain ⟨modes2, h2⟩ := Inv_step eff buffers st p rest modes h
      exact Inv_foldl eff buffers rest (step eff buffers st p) modes2 h2

/-! Consequences of the invariant at the end of the sweep. -/

theorem remOf_started_ne_nil (b : Nat) (m : BMode) (h : m.isStarted) : remOf b m ≠ [] := by
  cases m with
  | notStarted buf => exact absurd h (by simp [BMode.isStarted])
  | finished => exact absurd h (by simp [BMode.isStarted])
  | active gs hi => simp [remOf]
  | inGap w gu gs hi => simp [remOf]

theorem modeInv_spanOK (st : SweepState) (b : Nat) (m : BMode) (h : modeInv st b m) :
    ∃ bound, spanOK (lget [] st.spanData b) bound := by
  cases m with
  | notStarted buf => exact ⟨_, h.2⟩
  | finished => exact ⟨_, h.2⟩
  | active gs hi => exact ⟨_, h.2.2.1⟩
  | inGap w gu gs hi =>
      cases w with
      | none => exact ⟨_, h.2⟩
      | some win => exact ⟨_, h.2.2.1⟩

theorem mem_zipWith_buffer_data :
    ∀ (l1 : List (List SectionSpan)) (l2 : List (List Overlap)) (bd : BufferData),
      bd ∈ List.zipWith (fun s o => BufferData.mk s o) l1 l2 →
      ∃ i, i < l1.length ∧ bd.section_spans = lget [] l1 i
  | [], _, bd, h => by simp at h
  | a :: l1, [], bd, h => by simp at h
  | a :: l1, o :: l2, bd, h => by
      rcases List.mem_cons.1 h with rfl | h
      · exact ⟨0, by simp, rfl⟩
      · obtain ⟨i, hi, he⟩ := mem_zipWith_buffer_data l1 l2 bd h
        exact ⟨i + 1, by simpa using hi, he⟩

theorem Inv_end_alive_nil (buffers : List Buffer) (st : SweepState) (modes : Nat → BMode)
    (h : Inv buffers st [] modes) : st.alive = [] := by
  obtain ⟨_, _, _, _, _, _, _, haliveiff, hbuf, _⟩ := h
  rw [List.eq_nil_iff_forall_not_mem]
  intro x hx
  obtain ⟨hxN, hst⟩ := (haliveiff x).1 hx
  have h1 := (hbuf x hxN).1
  simp only [List.filter_nil] at h1
  exact absurd h1.symm (remOf_started_ne_nil x (modes x) hst)

/-- For a well-formed problem the partition ranges tile the section index
interval exactly: consecutive, increasing, starting at 0 and ending at
`sections.size()`. -/
theorem Sweep_tiles (eff : Buffer → Buffer → Option Int) (p : Problem)
    (hwf : wfProblem p = true) :
    tiles (Sweep eff p).partitions 0 (((Sweep eff p).sections.length : Int)) := by
  obtain ⟨modes, hend⟩ := Inv_foldl eff p.buffers (sortedPoints p) (initState p.buffers)
    (fun b => BMode.notStarted (lget default p.buffers b)) (Inv_init p hwf)
  have halive := Inv_end_alive_nil p.buffers _ modes hend
  obtain ⟨htiles, hLS⟩ := hend.2.2.2.2.2.2.2.2.2.1 halive
  exact hLS ▸ htiles

/-- For a well-formed problem every buffer's recorded spans form a proper
chain. -/
theorem Sweep_spanOK (eff : Buffer → Buffer → Option Int) (p : Problem)
    (hwf : wfProblem p = true) :
    ∀ bd ∈ (Sweep eff p).buffer_data, ∃ bound, spanOK bd.section_spans bound := by
  obtain ⟨modes, hend⟩ := Inv_foldl eff p.buffers (sortedPoints p) (initState p.buffers)
    (fun b => BMode.notStarted (lget default p.buffers b)) (Inv_init p hwf)
  intro bd hbd
  have hlen2 : ((sortedPoints p).foldl (step eff p.buffers)
      (initState p.buffers)).spanData.length = p.buffers.length := hend.2.2.2.2.2.1
  obtain ⟨i, hi, he⟩ := mem_zipWith_buffer_data _ _ bd hbd
  rw [he]
  exact modeInv_spanOK _ i (modes i) ((hend.2.2.2.2.2.2.2.2.1 i (hlen2 ▸ hi)).2.2)

/-- C4, amended: for every problem whose gaps lie strictly inside their
buffers' lifespans and are strictly separated (`wfProblem`, strictly
stronger than the spec's input contract), the partitions in the
`SweepResult` have section ranges that are pairwise disjoint, appear in
increasing order, and whose union is exactly `[0, sections.size())` with no
gaps and no overlaps — expressed by `tiles`: the ranges are consecutive
half-open intervals starting at 0 and ending at `sections.length`.  The
original claim, over all spec-valid inputs, is refuted by
`claim_C4_counterexample`. -/
theorem claim_C4_partitions_tile (eff : Buffer → Buffer → Option Int) (p : Problem)
    (hwf : wfProblem p = true) :
    tiles (Sweep eff p).partitions 0 (((Sweep eff p).sections.length : Int)) :=
  Sweep_tiles eff p hwf

/-- Witness for C4 at the one-buffer windowed-gap problem. -/
theorem claim_C4_partitions_tile_witness :
    wfProblem windowedGapProblem = true ∧
    tiles (Sweep effNone windowedGapProblem).partitions 0
      (((Sweep effNone windowedGapProblem).sections.length : Int)) :=
  ⟨by decide, claim_C4_partitions_tile effNone windowedGapProblem (by decide)⟩

/-- C7, amended: for every problem whose gaps lie strictly inside their
buffers' lifespans and are strictly separated (`wfProblem`, strictly
stronger than the spec's input contract) and every buffer, the
`SectionSpan`s recorded in that buffer's `BufferData` appear in strictly
increasing section order with pairwise non-overlapping ranges (each range is
proper and each upper bound is at most the next lower bound), and every
`SectionRange` produced — in spans and in partitions — satisfies
`lower ≤ upper`.  The original claim, over all spec-valid inputs, is refuted
by `claim_C7_counterexample`. -/
theorem claim_C7_span_chain (eff : Buffer → Buffer → Option Int) (p : Problem)
    (hwf : wfProblem p = true) :
    (∀ bd ∈ (Sweep eff p).buffer_data, spanChain bd.section_spans) ∧
    (∀ bd ∈ (Sweep eff p).buffer_data, ∀ sp ∈ bd.section_spans,
      sp.section_range.lower ≤ sp.section_range.upper) ∧
    (∀ q ∈ (Sweep eff p).partitions, q.section_range.lower ≤ q.section_range.upper) := by
  have hok := Sweep_spanOK eff p hwf
  refine ⟨?_, ?_, ?_⟩
  · intro bd hbd
    obtain ⟨bound, hb⟩ := hok bd hbd
    exact ⟨fun sp h => (hb.1 sp h).1, hb.2⟩
  · intro bd hbd sp hsp
    obtain ⟨bound, hb⟩ := hok bd hbd
    exact le_of_lt (hb.1 sp hsp).1
  · exact tiles_mem_le _ _ _ (Sweep_tiles eff p hwf)

/-- Witness for C7 at the two-buffer overlapping problem. -/
theorem claim_C7_span_chain_witness :
    wfProblem twoOverlappingProblem = true ∧
    ((∀ bd ∈ (Sweep effNone twoOverlappingProblem).buffer_data,
        spanChain bd.section_spans) ∧
      (∀ bd ∈ (Sweep effNone twoOverlappingProblem).buffer_data,
        ∀ sp ∈ bd.section_spans, sp.section_range.lower ≤ sp.section_range.upper) ∧
      (∀ q ∈ (Sweep effNone twoOverlappingProblem).partitions,
        q.section_range.lower ≤ q.section_range.upper)) :=
  ⟨by decide, claim_C7_span_chain effNone twoOverlappingProblem (by decide)⟩

/-- C4, counterexample: the claim quantifies over the spec's valid inputs,
which admit a gap touching the lifespan end.  On one buffer `[0,5)` with
empty gap `[3,5)` the true-end event at time 5 sorts before the gap-end
event, finds `section_start = -1` and skips the block assigning the
partition's range (sweeper.cc:145-162); the trailing gap-end then opens a
spurious empty partition.  The sweep yields 2 sections but both partition
ranges are `[0,0)`, so the ranges do not tile `[0, sections.size())`. -/
theorem claim_C4_counterexample :
    specValidProblem gapAtEndProblem = true ∧
    ¬ tiles (Sweep effNone gapAtEndProblem).partitions 0
      (((Sweep effNone gapAtEndProblem).sections.length : Int)) := by
  refine ⟨by decide, ?_⟩
  intro h
  have he : (Sweep effNone gapAtEndProblem).partitions =
      [⟨[0], ⟨0, 0⟩⟩, ⟨[], ⟨0, 0⟩⟩] := by decide
  have hs : (Sweep effNone gapAtEndProblem).sections.length = 2 := by decide
  rw [he, hs] at h
  obtain ⟨h1, h2, h3, h4, h5⟩ := h
  have h6 : (0 : Int) = ((2 : Nat) : Int) := h5
  norm_num at h6

/-- C7, counterexample: adjacent windowed gaps `[3,5)` and `[5,8)` are
spec-valid; at time 5 the second gap's start event (tier 0) sorts before the
first gap's end event (tier 3), so the first gap's end closes the span
`[2,2)` with no section flushed in between — an empty span, refuting
`lower < upper` and the strictly increasing ordering of consecutive spans. -/
theorem claim_C7_counterexample :
    specValidProblem adjacentGapsProblem = true ∧
    ¬ (∀ bd ∈ (Sweep effNone adjacentGapsProblem).buffer_data,
        spanChain bd.section_spans) := by
  refine ⟨by decide, ?_⟩
  intro h
  have hbd : lget ⟨[], []⟩ (Sweep effNone adjacentGapsProblem).buffer_data 0 ∈
      (Sweep effNone adjacentGapsProblem).buffer_data := by decide
  have hmem : (⟨⟨2, 2⟩, ⟨0, 4⟩⟩ : SectionSpan) ∈
      (lget ⟨[], []⟩ (Sweep effNone adjacentGapsProblem).buffer_data 0).section_spans := by
    decide
  have h2 := (h _ hbd).1 _ hmem
  exact absurd h2 (by decide)

end Minimalloc
